import Mathlib

/-!
Verification of `monitor.py` (altered-unique-monitor): a shallow embedding of
the price parser, the Foiler exclusion classifier, the candidate extractor,
the detail-page verification, the incremental scroll discovery loop and the
best-price ratchet, together with theorems settling the specification claims.

Conventions of the embedding:
* Python strings are `String` / `List Char`; Python floats are `ℚ`
  (every price in scope is a decimal with at most two fractional digits, and
  the epsilon comparison of the ratchet is stated over exact rationals).
* Fallible page operations (element text extraction, navigation, attribute
  reads) are modelled as `Option`-valued data carried by the page model: a
  `none` stands for the operation raising, which the source code catches.
* The network / DOM driver (playwright) is an external collaborator: the
  outcome of the two auxiliary page fetches used by verification, and the
  rendered page contents after each scroll, are oracle functions supplied to
  the embedded code, exactly as the spec treats the driver as opaque.
-/

namespace Monitor

/-! ## Character classes of the regexes in the source

`re` in Python 3 works over unicode: `\s` matches unicode whitespace, `\w`
matches unicode word characters.  We model the whitespace set faithfully and
the word-character set over ASCII alphanumerics, underscore and the accented
letters that actually occur on the target page; exotic scripts are outside
the inputs the program (and the claims) are concerned with. -/

/-- The characters matched by `\s` in Python 3 (unicode whitespace). -/
def reSpaceChars : List Char :=
  [' ', '\t', '\n', '\r', '\x0b', '\x0c',
   '\x1c', '\x1d', '\x1e', '\x1f', '\x85',
   '\u00A0', '\u1680', '\u2000', '\u2001', '\u2002', '\u2003', '\u2004',
   '\u2005', '\u2006', '\u2007', '\u2008', '\u2009', '\u200A',
   '\u2028', '\u2029', '\u202F', '\u205F', '\u3000']

/-- Whitespace test for the `\s` class. -/
def isSpaceRe (c : Char) : Bool := reSpaceChars.contains c

/-- Digit test: `[0-9]` (the strict price pattern uses the explicit ASCII
class; the loose pattern uses `\d`, which over unicode also admits non-ASCII
decimal digits — those never carry a price on the target page and are not
modelled). -/
def isDigitRe (c : Char) : Bool := c.isDigit

/-- Accented letters (both cases) that occur in the French storefront text;
they are word characters for Python's `\w` / `\b`. -/
def frenchLetters : List Char :=
  ['à', 'â', 'ä', 'é', 'è', 'ê', 'ë', 'î', 'ï', 'ô', 'ö', 'ù', 'û', 'ü', 'ç',
   'À', 'Â', 'Ä', 'É', 'È', 'Ê', 'Ë', 'Î', 'Ï', 'Ô', 'Ö', 'Ù', 'Û', 'Ü', 'Ç']

/-- Word-character test for `\b` boundaries (`[A-Za-z0-9_]` plus the accented
letters above). -/
def isWordCh (c : Char) : Bool :=
  c.isAlphanum || c = '_' || frenchLetters.contains c

/-- Python `str.lower` on the character range relevant here (ASCII plus the
accented letters used by the page). -/
def toLowerPy (c : Char) : Char :=
  if 'A' ≤ c ∧ c ≤ 'Z' then Char.ofNat (c.toNat + 32)
  else if c = 'À' then 'à' else if c = 'Â' then 'â' else if c = 'Ä' then 'ä'
  else if c = 'É' then 'é' else if c = 'È' then 'è' else if c = 'Ê' then 'ê'
  else if c = 'Ë' then 'ë' else if c = 'Î' then 'î' else if c = 'Ï' then 'ï'
  else if c = 'Ô' then 'ô' else if c = 'Ö' then 'ö' else if c = 'Ù' then 'ù'
  else if c = 'Û' then 'û' else if c = 'Ü' then 'ü' else if c = 'Ç' then 'ç'
  else c

/-- `text.replace("\xa0", " ").replace(" ", " ")` — the whitespace
normalisation done by `parse_price` and `is_foiler_block`. -/
def normalizeSpaces (cs : List Char) : List Char :=
  cs.map (fun c => if c = '\u00A0' ∨ c = '\u202F' then ' ' else c)

/-! ## The price parser (`parse_price`, monitor.py lines 80–88)

Strict pattern `PRICE_RE`: `À\s*PARTIR\s*DE\s*([0-9]+(?:[.,][0-9]{1,2})?)\s*€`
(case-insensitive); loose fallback: `(\d+(?:[.,][0-9]{1,2})?)\s*€`.
`re.search` finds the leftmost match; we implement the scan directly.
The captured group is converted with `float(g.replace(",", "."))`; for every
string produced by the group (digits, optional separator, 1–2 digits) the
conversion succeeds, so the `except ValueError` branch is unreachable and the
model returns the exact rational value. -/

/-- Numeric value of a digit string. -/
def natOfDigits (ds : List Char) : Nat :=
  ds.foldl (fun n c => 10 * n + (c.toNat - 48)) 0

/-- Value of an amount `ints [sep fr]` as a rational:
`float(group.replace(",", "."))`. -/
def amountVal (ints fr : List Char) : ℚ :=
  (natOfDigits ints : ℚ) + (natOfDigits fr : ℚ) / (10 : ℚ) ^ fr.length

/-- `\s*` — greedy space skip (the following literal is never a space, so
greediness is deterministic here). -/
def skipSpaces (cs : List Char) : List Char := cs.dropWhile isSpaceRe

/-- `\s*€` at the head of the remaining input (the default of `headD` is a
space, which is not `€`, so an empty remainder fails the test). -/
def euroAfter (cs : List Char) : Bool :=
  (skipSpaces cs).headD ' ' == '€'

/-- Decimal separator of the amount grammar: `[.,]`. -/
def isSep (c : Char) : Bool := c = '.' || c = ','

/-- Try the two-fractional-digit alternative `[.,][0-9]{2}` then `\s*€`
(the `{1,2}` quantifier is greedy, so two digits are tried first). -/
def tryFracTwo (ints rest : List Char) : Option ℚ :=
  match rest with
  | s :: d1 :: d2 :: r =>
    if isSep s ∧ isDigitRe d1 ∧ isDigitRe d2 ∧ euroAfter r then
      some (amountVal ints [d1, d2])
    else none
  | _ => none

/-- Try the one-fractional-digit alternative `[.,][0-9]` then `\s*€`. -/
def tryFracOne (ints rest : List Char) : Option ℚ :=
  match rest with
  | s :: d1 :: r =>
    if isSep s ∧ isDigitRe d1 ∧ euroAfter r then some (amountVal ints [d1])
    else none
  | _ => none

/-- Try the no-fraction alternative: directly `\s*€`. -/
def tryNoFrac (ints rest : List Char) : Option ℚ :=
  if euroAfter rest then some (amountVal ints []) else none

/-- First-success choice between regex alternatives, in the order the
backtracking engine tries them. -/
def firstOf (a b : Option ℚ) : Option ℚ :=
  match a with
  | some v => some v
  | none => b

/-- Match `([0-9]+(?:[.,][0-9]{1,2})?)\s*€` at the head of `cs` and return the
value of the captured amount.  The `[0-9]+` is taken maximally: a shorter
digit run cannot lead to a match, because the character following it would be
a digit, which fails the separator, space and `€` tests alike, so the
backtracking of the real engine never helps and is not spelled out. -/
def matchAmountEuro (cs : List Char) : Option ℚ :=
  if (cs.takeWhile isDigitRe).isEmpty then none
  else
    firstOf (tryFracTwo (cs.takeWhile isDigitRe) (cs.dropWhile isDigitRe))
      (firstOf (tryFracOne (cs.takeWhile isDigitRe) (cs.dropWhile isDigitRe))
        (tryNoFrac (cs.takeWhile isDigitRe) (cs.dropWhile isDigitRe)))

/-- Case-insensitive literal match; returns the rest of the input. -/
def matchLit (lit : List Char) (cs : List Char) : Option (List Char) :=
  match lit, cs with
  | [], rest => some rest
  | _ :: _, [] => none
  | l :: lt, c :: ct => if toLowerPy c = l then matchLit lt ct else none

/-- Match the full strict pattern `À\s*PARTIR\s*DE\s*(amount)\s*€` at the
head of `cs`. -/
def matchStrictAt (cs : List Char) : Option ℚ :=
  match cs with
  | [] => none
  | c :: rest =>
    if toLowerPy c = 'à' then
      (matchLit ['p', 'a', 'r', 't', 'i', 'r'] (skipSpaces rest)).bind fun r1 =>
        (matchLit ['d', 'e'] (skipSpaces r1)).bind fun r2 =>
          matchAmountEuro (skipSpaces r2)
    else none

/-- Leftmost search for the strict pattern. -/
def searchStrict : List Char → Option ℚ
  | [] => none
  | c :: rest => firstOf (matchStrictAt (c :: rest)) (searchStrict rest)

/-- Leftmost search for the loose pattern. -/
def searchLoose : List Char → Option ℚ
  | [] => none
  | c :: rest => firstOf (matchAmountEuro (c :: rest)) (searchLoose rest)

/-- `parse_price` (monitor.py lines 80–88): normalise the no-break-space
variants, search the strict badge pattern first, fall back to the loose
pattern, convert the captured amount. -/
def parse_price (s : String) : Option ℚ :=
  firstOf (searchStrict (normalizeSpaces s.data))
    (searchLoose (normalizeSpaces s.data))

/-- The optional `[.,][0-9]{1,2}` part of the amount, as it appears in the
source text: empty when there are no fractional digits. -/
def sepFrac (sep : Char) (fr : List Char) : List Char :=
  if fr = [] then [] else sep :: fr

/-! ### Lemmas about the price parser -/

lemma toLowerPy_eq_self_of_le {c : Char} (h : c ≤ '9') : toLowerPy c = c := by
  have h1 : ¬('A' ≤ c ∧ c ≤ 'Z') := fun hc => absurd (le_trans hc.1 h) (by decide)
  have hne : ∀ d : Char, '9' < d → ¬(c = d) := fun d hd hc =>
    absurd (hc ▸ h) (not_le.mpr hd)
  unfold toLowerPy
  rw [if_neg h1, if_neg (hne 'À' (by decide)), if_neg (hne 'Â' (by decide)),
    if_neg (hne 'Ä' (by decide)), if_neg (hne 'É' (by decide)),
    if_neg (hne 'È' (by decide)), if_neg (hne 'Ê' (by decide)),
    if_neg (hne 'Ë' (by decide)), if_neg (hne 'Î' (by decide)),
    if_neg (hne 'Ï' (by decide)), if_neg (hne 'Ô' (by decide)),
    if_neg (hne 'Ö' (by decide)), if_neg (hne 'Ù' (by decide)),
    if_neg (hne 'Û' (by decide)), if_neg (hne 'Ü' (by decide)),
    if_neg (hne 'Ç' (by decide))]

lemma char_le_of_digit {c : Char} (h : isDigitRe c = true) : c ≤ '9' := by
  simp only [isDigitRe, Char.isDigit, Bool.and_eq_true, decide_eq_true_eq] at h
  exact h.2

lemma sep_cases {c : Char} (h : isSep c = true) : c = '.' ∨ c = ',' := by
  simpa [isSep] using h

lemma mem_normalizeSpaces {c : Char} {xs : List Char}
    (h : c ∈ normalizeSpaces xs) : c = ' ' ∨ c ∈ xs := by
  rcases List.mem_map.1 h with ⟨a, ha, rfl⟩
  by_cases hc : a = '\u00A0' ∨ a = '\u202F'
  · exact Or.inl (by simp only [if_pos hc])
  · exact Or.inr (by simp only [if_neg hc]; exact ha)

lemma normalizeSpaces_eq_self {xs : List Char}
    (h : ∀ c ∈ xs, ¬(c = '\u00A0' ∨ c = '\u202F')) :
    normalizeSpaces xs = xs := by
  induction xs with
  | nil => rfl
  | cons a t ih =>
    simp only [normalizeSpaces, List.map_cons,
      if_neg (h a (List.mem_cons_self a t))]
    exact congrArg (a :: ·) (ih fun c hc => h c (List.mem_cons_of_mem _ hc))

lemma euro_mem_of_euroAfter {cs : List Char} (h : euroAfter cs = true) :
    '€' ∈ cs := by
  unfold euroAfter at h
  rcases hd : skipSpaces cs with _ | ⟨c, t⟩
  · rw [hd] at h; exact absurd h (by decide)
  · rw [hd] at h
    simp only [List.headD_cons, beq_iff_eq] at h
    subst h
    exact ((List.dropWhile_sublist _).mem (hd ▸ List.mem_cons_self _ _) :
      '€' ∈ cs)

lemma euro_mem_of_tryFracTwo {ints rest : List Char} {v : ℚ}
    (h : tryFracTwo ints rest = some v) : '€' ∈ rest := by
  rcases rest with _ | ⟨s, _ | ⟨d1, _ | ⟨d2, r⟩⟩⟩
  · exact absurd h (by simp [tryFracTwo])
  · exact absurd h (by simp [tryFracTwo])
  · exact absurd h (by simp [tryFracTwo])
  · simp only [tryFracTwo] at h
    split_ifs at h with hc
    exact List.mem_cons_of_mem _ (List.mem_cons_of_mem _
      (List.mem_cons_of_mem _ (euro_mem_of_euroAfter hc.2.2.2)))

lemma euro_mem_of_tryFracOne {ints rest : List Char} {v : ℚ}
    (h : tryFracOne ints rest = some v) : '€' ∈ rest := by
  rcases rest with _ | ⟨s, _ | ⟨d1, r⟩⟩
  · exact absurd h (by simp [tryFracOne])
  · exact absurd h (by simp [tryFracOne])
  · simp only [tryFracOne] at h
    split_ifs at h with hc
    exact List.mem_cons_of_mem _ (List.mem_cons_of_mem _
      (euro_mem_of_euroAfter hc.2.2))

lemma euro_mem_of_tryNoFrac {ints rest : List Char} {v : ℚ}
    (h : tryNoFrac ints rest = some v) : '€' ∈ rest := by
  unfold tryNoFrac at h
  split_ifs at h with hc
  exact euro_mem_of_euroAfter hc

lemma firstOf_some {v : ℚ} {b : Option ℚ} : firstOf (some v) b = some v := rfl

lemma firstOf_none {b : Option ℚ} : firstOf none b = b := rfl

lemma euro_mem_of_matchAmountEuro {cs : List Char} {v : ℚ}
    (h : matchAmountEuro cs = some v) : '€' ∈ cs := by
  simp only [matchAmountEuro] at h
  split_ifs at h with hne
  have sub : '€' ∈ cs.dropWhile isDigitRe → '€' ∈ cs :=
    fun hm => (List.dropWhile_sublist _).mem hm
  rcases h2 : tryFracTwo (cs.takeWhile isDigitRe) (cs.dropWhile isDigitRe)
      with _ | w
  · rw [h2, firstOf_none] at h
    rcases h1 : tryFracOne (cs.takeWhile isDigitRe) (cs.dropWhile isDigitRe)
        with _ | w
    · rw [h1, firstOf_none] at h
      exact sub (euro_mem_of_tryNoFrac h)
    · exact sub (euro_mem_of_tryFracOne h1)
  · exact sub (euro_mem_of_tryFracTwo h2)

lemma matchLit_sublist {lit cs r : List Char} (h : matchLit lit cs = some r) :
    r.Sublist cs := by
  induction lit generalizing cs with
  | nil =>
    unfold matchLit at h
    cases h
    exact List.Sublist.refl _
  | cons l lt ih =>
    rcases cs with _ | ⟨c, ct⟩
    · exact absurd h (by simp [matchLit])
    · simp only [matchLit] at h
      split_ifs at h with hc
      exact (ih h).trans (List.sublist_cons_self _ _)

lemma euro_mem_of_matchStrictAt {cs : List Char} {v : ℚ}
    (h : matchStrictAt cs = some v) : '€' ∈ cs := by
  rcases cs with _ | ⟨c, rest⟩
  · exact absurd h (by simp [matchStrictAt])
  · simp only [matchStrictAt] at h
    split_ifs at h with hc
    rw [Option.bind_eq_some] at h
    rcases h with ⟨r1, h1, h⟩
    rw [Option.bind_eq_some] at h
    rcases h with ⟨r2, h2, h⟩
    have m1 : '€' ∈ skipSpaces r2 := euro_mem_of_matchAmountEuro h
    have m2 : '€' ∈ r2 := (List.dropWhile_sublist _).mem m1
    have m3 : '€' ∈ r1 :=
      (List.dropWhile_sublist _).mem ((matchLit_sublist h2).mem m2)
    have m4 : '€' ∈ rest :=
      (List.dropWhile_sublist _).mem ((matchLit_sublist h1).mem m3)
    exact List.mem_cons_of_mem _ m4

lemma searchStrict_eq_none {cs : List Char} (h : '€' ∉ cs) :
    searchStrict cs = none := by
  induction cs with
  | nil => rfl
  | cons c rest ih =>
    rw [searchStrict]
    rcases hm : matchStrictAt (c :: rest) with _ | v
    · rw [firstOf_none]
      exact ih fun hmem => h (List.mem_cons_of_mem _ hmem)
    · exact absurd (euro_mem_of_matchStrictAt hm) h

lemma searchLoose_eq_none {cs : List Char} (h : '€' ∉ cs) :
    searchLoose cs = none := by
  induction cs with
  | nil => rfl
  | cons c rest ih =>
    rw [searchLoose]
    rcases hm : matchAmountEuro (c :: rest) with _ | v
    · rw [firstOf_none]
      exact ih fun hmem => h (List.mem_cons_of_mem _ hmem)
    · exact absurd ((euro_mem_of_matchAmountEuro hm : '€' ∈ c :: rest)) h

lemma searchStrict_append {xs ys : List Char}
    (h : ∀ c ∈ xs, toLowerPy c ≠ 'à') :
    searchStrict (xs ++ ys) = searchStrict ys := by
  induction xs with
  | nil => rfl
  | cons c t ih =>
    have hc : toLowerPy c ≠ 'à' := h c (List.mem_cons_self _ _)
    rw [List.cons_append, searchStrict]
    have hmm : matchStrictAt (c :: (t ++ ys)) = none := by
      simp only [matchStrictAt]
      rw [if_neg hc]
    rw [hmm, firstOf_none]
    exact ih fun d hd => h d (List.mem_cons_of_mem _ hd)

lemma matchAmountEuro_cons_of_not_digit {c : Char} {t : List Char}
    (h : isDigitRe c = false) : matchAmountEuro (c :: t) = none := by
  simp [matchAmountEuro, List.takeWhile_cons, h]

lemma searchLoose_append {xs ys : List Char}
    (h : ∀ c ∈ xs, isDigitRe c = false) :
    searchLoose (xs ++ ys) = searchLoose ys := by
  induction xs with
  | nil => rfl
  | cons c t ih =>
    rw [List.cons_append, searchLoose,
      matchAmountEuro_cons_of_not_digit (h c (List.mem_cons_self _ _)),
      firstOf_none]
    exact ih fun d hd => h d (List.mem_cons_of_mem _ hd)

lemma span_digits_append {ints : List Char} {c : Char} {t : List Char}
    (hid : ∀ d ∈ ints, isDigitRe d = true) (hc : isDigitRe c = false) :
    (ints ++ c :: t).takeWhile isDigitRe = ints ∧
      (ints ++ c :: t).dropWhile isDigitRe = c :: t := by
  induction ints with
  | nil => simp [List.takeWhile_cons, List.dropWhile_cons, hc]
  | cons a s ih =>
    have ha : isDigitRe a = true := hid a (List.mem_cons_self _ _)
    have ihh := ih fun d hd => hid d (List.mem_cons_of_mem _ hd)
    constructor
    · rw [List.cons_append, List.takeWhile_cons, if_pos ha, ihh.1]
    · rw [List.cons_append, List.dropWhile_cons, if_pos ha, ihh.2]

lemma tryFracTwo_not_sep {ints : List Char} {s : Char} {t : List Char}
    (hs : isSep s = false) : tryFracTwo ints (s :: t) = none := by
  rcases t with _ | ⟨a, _ | ⟨b, r⟩⟩
  · rfl
  · rfl
  · simp only [tryFracTwo]
    rw [if_neg]
    rintro ⟨h1, -⟩
    rw [hs] at h1
    exact absurd h1 (by simp)

lemma tryFracOne_not_sep {ints : List Char} {s : Char} {t : List Char}
    (hs : isSep s = false) : tryFracOne ints (s :: t) = none := by
  rcases t with _ | ⟨a, r⟩
  · rfl
  · simp only [tryFracOne]
    rw [if_neg]
    rintro ⟨h1, -⟩
    rw [hs] at h1
    exact absurd h1 (by simp)

lemma euroAfter_euro_cons {t : List Char} : euroAfter ('€' :: t) = true := by
  rw [euroAfter, skipSpaces, List.dropWhile_cons, if_neg (by decide)]
  rfl

lemma matchAmountEuro_eq_of_span {cs ints rest : List Char}
    (h1 : cs.takeWhile isDigitRe = ints) (h2 : cs.dropWhile isDigitRe = rest) :
    matchAmountEuro cs
      = if ints.isEmpty then none
        else firstOf (tryFracTwo ints rest)
          (firstOf (tryFracOne ints rest) (tryNoFrac ints rest)) := by
  unfold matchAmountEuro
  rw [h1, h2]

lemma isEmpty_false_of_ne_nil {ints : List Char} (hi : ints ≠ []) :
    ints.isEmpty = false := by
  cases ints with
  | nil => exact absurd rfl hi
  | cons a t => rfl

lemma matchAmountEuro_core {ints fr suf : List Char} {sep : Char}
    (hi : ints ≠ []) (hid : ∀ c ∈ ints, isDigitRe c = true)
    (hfr : ∀ c ∈ fr, isDigitRe c = true) (hlen : fr.length ≤ 2)
    (hsep : isSep sep = true) :
    matchAmountEuro (ints ++ (sepFrac sep fr ++ '€' :: suf))
      = some (amountVal ints fr) := by
  have hsepd : isDigitRe sep = false := by
    rcases sep_cases hsep with rfl | rfl <;> decide
  have hni := isEmpty_false_of_ne_nil hi
  rcases fr with _ | ⟨d1, _ | ⟨d2, _ | ⟨d3, fr'⟩⟩⟩
  · -- no fractional digits
    rw [sepFrac, if_pos rfl, List.nil_append]
    have hsp := span_digits_append (t := suf) hid
      (by decide : isDigitRe '€' = false)
    rw [matchAmountEuro_eq_of_span hsp.1 hsp.2, if_neg (by simp [hni]),
      tryFracTwo_not_sep (by decide), firstOf_none,
      tryFracOne_not_sep (by decide), firstOf_none,
      tryNoFrac, if_pos euroAfter_euro_cons]
  · -- one fractional digit
    have hd1 : isDigitRe d1 = true := hfr d1 (List.mem_cons_self _ _)
    rw [sepFrac, if_neg (by simp)]
    simp only [List.cons_append, List.nil_append]
    have hsp := span_digits_append (t := d1 :: '€' :: suf) hid hsepd
    have h2 : tryFracTwo ints (sep :: d1 :: '€' :: suf) = none := by
      simp only [tryFracTwo]
      rw [if_neg]
      rintro ⟨-, -, h3, -⟩
      exact absurd h3 (by decide)
    have h1 : tryFracOne ints (sep :: d1 :: '€' :: suf)
        = some (amountVal ints [d1]) := by
      simp only [tryFracOne]
      rw [if_pos ⟨hsep, hd1, euroAfter_euro_cons⟩]
    rw [matchAmountEuro_eq_of_span hsp.1 hsp.2, if_neg (by simp [hni]),
      h2, firstOf_none, h1, firstOf_some]
  · -- two fractional digits
    have hd1 : isDigitRe d1 = true := hfr d1 (List.mem_cons_self _ _)
    have hd2 : isDigitRe d2 = true :=
      hfr d2 (List.mem_cons_of_mem _ (List.mem_cons_self _ _))
    rw [sepFrac, if_neg (by simp)]
    simp only [List.cons_append, List.nil_append]
    have hsp := span_digits_append (t := d1 :: d2 :: '€' :: suf) hid hsepd
    have h2 : tryFracTwo ints (sep :: d1 :: d2 :: '€' :: suf)
        = some (amountVal ints [d1, d2]) := by
      simp only [tryFracTwo]
      rw [if_pos ⟨hsep, hd1, hd2, euroAfter_euro_cons⟩]
    rw [matchAmountEuro_eq_of_span hsp.1 hsp.2, if_neg (by simp [hni]),
      h2, firstOf_some]
  · -- three or more fractional digits: excluded by the grammar
    exfalso
    simp at hlen

lemma searchLoose_core {ints fr suf : List Char} {sep : Char}
    (hi : ints ≠ []) (hid : ∀ c ∈ ints, isDigitRe c = true)
    (hfr : ∀ c ∈ fr, isDigitRe c = true) (hlen : fr.length ≤ 2)
    (hsep : isSep sep = true) :
    searchLoose (ints ++ (sepFrac sep fr ++ '€' :: suf))
      = some (amountVal ints fr) := by
  rcases ints with _ | ⟨i0, it⟩
  · exact absurd rfl hi
  · rw [List.cons_append, searchLoose, ← List.cons_append,
      matchAmountEuro_core hi hid hfr hlen hsep, firstOf_some]

/-- Claim C7: the price parser normalises no-break-space variants, prefers
the anchored badge pattern and falls back to the first loose amount; for
every string of the form `prefix AMOUNT € suffix` (the prefix free of
digits, of `€` and of the badge-initial letter, the suffix free of `€`),
it returns the exact decimal value of AMOUNT for either decimal separator
and 0–2 fractional digits, and it returns no value — being a total
function, without raising — for strings without a currency-suffixed
amount (in particular whenever no `€` occurs at all). -/
theorem C7_parse_price_correct :
    (∀ (pre ints fr suf : List Char) (sep : Char),
      ints ≠ [] →
      (∀ c ∈ ints, isDigitRe c = true) →
      (∀ c ∈ fr, isDigitRe c = true) →
      fr.length ≤ 2 →
      isSep sep = true →
      (∀ c ∈ pre, isDigitRe c = false ∧ c ≠ '€' ∧ toLowerPy c ≠ 'à') →
      '€' ∉ suf →
      parse_price (String.mk (pre ++ ints ++ (sepFrac sep fr ++ '€' :: suf)))
        = some (amountVal ints fr)) ∧
    (∀ s : String, '€' ∉ s.data → parse_price s = none) := by
  constructor
  · intro pre ints fr suf sep hi hid hfr hlen hsep hpre hsuf
    -- normalisation leaves the amount, separator and the euro sign untouched
    have hnints : normalizeSpaces ints = ints := by
      refine normalizeSpaces_eq_self fun c hc => ?_
      rcases id (char_le_of_digit (hid c hc)) with h9
      rintro (rfl | rfl) <;> exact absurd h9 (by decide)
    have hnsep : normalizeSpaces (sepFrac sep fr) = sepFrac sep fr := by
      refine normalizeSpaces_eq_self fun c hc => ?_
      unfold sepFrac at hc
      split_ifs at hc with hfe
      · exact absurd hc (by simp)
      · rcases List.mem_cons.1 hc with rfl | hcf
        · rcases sep_cases hsep with rfl | rfl <;> decide
        · rcases id (char_le_of_digit (hfr c hcf)) with h9
          rintro (rfl | rfl) <;> exact absurd h9 (by decide)
    have heuro : (if '€' = '\u00A0' ∨ '€' = '\u202F' then ' ' else '€')
        = '€' := by decide
    have hfold : ∀ xs : List Char,
        xs.map (fun c => if c = '\u00A0' ∨ c = '\u202F' then ' ' else c)
          = normalizeSpaces xs := fun _ => rfl
    rw [parse_price]
    have hmk : (String.mk (pre ++ ints ++ (sepFrac sep fr ++ '€' :: suf))).data
        = pre ++ ints ++ (sepFrac sep fr ++ '€' :: suf) := rfl
    rw [hmk, normalizeSpaces, List.map_append, List.map_append,
      List.map_append, List.map_cons, heuro, hfold pre, hfold ints,
      hfold (sepFrac sep fr), hfold suf, hnints, hnsep]
    set pre' := normalizeSpaces pre with hpre'
    set suf' := normalizeSpaces suf with hsuf'
    have hpre'p : ∀ c ∈ pre',
        isDigitRe c = false ∧ c ≠ '€' ∧ toLowerPy c ≠ 'à' := by
      intro c hc
      rcases mem_normalizeSpaces hc with rfl | hcm
      · exact ⟨by decide, by decide, by decide⟩
      · exact hpre c hcm
    have hsuf'e : '€' ∉ suf' := by
      intro hc
      rcases mem_normalizeSpaces hc with h | h
      · exact absurd h (by decide)
      · exact hsuf h
    -- the strict pattern finds no match anywhere
    have hstrict :
        searchStrict (pre' ++ ints ++ (sepFrac sep fr ++ '€' :: suf'))
          = none := by
      have hxs : ∀ c ∈ pre' ++ ints ++ (sepFrac sep fr ++ ['€']),
          toLowerPy c ≠ 'à' := by
        intro c hc
        rcases List.mem_append.1 hc with hc1 | hc2
        · rcases List.mem_append.1 hc1 with hcp | hci
          · exact (hpre'p c hcp).2.2
          · have h9 := char_le_of_digit (hid c hci)
            rw [toLowerPy_eq_self_of_le h9]
            rintro rfl
            exact absurd h9 (by decide)
        · rcases List.mem_append.1 hc2 with hcs | hce
          · unfold sepFrac at hcs
            split_ifs at hcs with hfe
            · exact absurd hcs (by simp)
            · rcases List.mem_cons.1 hcs with rfl | hcf
              · rcases sep_cases hsep with rfl | rfl <;> decide
              · have h9 := char_le_of_digit (hfr c hcf)
                rw [toLowerPy_eq_self_of_le h9]
                rintro rfl
                exact absurd h9 (by decide)
          · rcases List.mem_singleton.1 hce with rfl
            decide
      have hre : pre' ++ ints ++ (sepFrac sep fr ++ '€' :: suf')
          = (pre' ++ ints ++ (sepFrac sep fr ++ ['€'])) ++ suf' := by
        simp
      rw [hre, searchStrict_append hxs, searchStrict_eq_none hsuf'e]
    rw [hstrict, firstOf_none]
    -- the loose pattern matches exactly the amount
    rw [List.append_assoc, searchLoose_append fun c hc => (hpre'p c hc).1,
      searchLoose_core hi hid hfr hlen hsep]
  · intro s hs
    have hne : '€' ∉ normalizeSpaces s.data := by
      intro hc
      rcases mem_normalizeSpaces hc with h | h
      · exact absurd h (by decide)
      · exact hs h
    rw [parse_price, searchStrict_eq_none hne, firstOf_none,
      searchLoose_eq_none hne]

/-- Witness for the claim C7 theorem at a concrete prefix, amount and
suffix, and at a concrete string without a currency sign. -/
theorem C7_parse_price_correct_witness :
    parse_price (String.mk
        (['P', 'r', 'i', 'x', ' '] ++ ['1', '2']
          ++ (sepFrac ',' ['3', '4'] ++ '€' :: [' ', 'T', 'T', 'C'])))
      = some (amountVal ['1', '2'] ['3', '4']) ∧
    parse_price "ACHETER" = none :=
  ⟨C7_parse_price_correct.1 ['P', 'r', 'i', 'x', ' '] ['1', '2'] ['3', '4']
      [' ', 'T', 'T', 'C'] ',' (by decide) (by decide) (by decide) (by decide)
      (by decide) (by decide) (by decide),
    C7_parse_price_correct.2 "ACHETER" (by decide)⟩

/-! ## Whole-word keyword matching
(`FOILER_RE_STRICT = re.compile(r"\bfoiler\b", re.I)`, line 38, and
`DISPO_RE = re.compile(r"\bDisponible\s+à\b", re.I)`, line 39) -/

/-- The exclusion keyword, lowercase. -/
def foilerChars : List Char := ['f', 'o', 'i', 'l', 'e', 'r']

/-- A `\b` boundary holds before the current position when there is no
previous character or the previous character is not a word character (both
keywords start with a word character, so `\b` is exactly this condition). -/
def boundaryBefore (prev : Option Char) : Bool :=
  match prev with
  | none => true
  | some c => !isWordCh c

/-- Case-insensitive match of the word `w` at the head of `cs`, requiring a
`\b` boundary after it (end of input or a non-word character). -/
def wordAt (w : List Char) (cs : List Char) : Bool :=
  match w, cs with
  | [], [] => true
  | [], c :: _ => !isWordCh c
  | _ :: _, [] => false
  | l :: lt, c :: ct => (toLowerPy c == l) && wordAt lt ct

/-- Generic leftmost scan: the head matcher `p` succeeds at some position
preceded by a `\b` boundary; `prev` is the character before the current
position (`none` at the start of the text). -/
def searchAt (p : List Char → Bool) (prev : Option Char) :
    List Char → Bool
  | [] => false
  | c :: rest =>
    (boundaryBefore prev && p (c :: rest)) || searchAt p (some c) rest

/-- `FOILER_RE_STRICT.search(text)` as a boolean. -/
def hasFoilerWord (cs : List Char) : Bool :=
  searchAt (wordAt foilerChars) none cs

/-- The part of `DISPO_RE` after the initial boundary:
`Disponible\s+à\b` at the head of the input. -/
def dispoAt (cs : List Char) : Bool :=
  match matchLit ['d', 'i', 's', 'p', 'o', 'n', 'i', 'b', 'l', 'e'] cs with
  | none => false
  | some r =>
    match r with
    | [] => false
    | c :: _ =>
      isSpaceRe c &&
        (match skipSpaces r with
         | [] => false
         | a :: rest2 =>
           (toLowerPy a == 'à') && boundaryBefore (some (rest2.headD ' ')))

/-- `DISPO_RE.search(text)` as a boolean: an internal offer line
`Disponible à …`. -/
def dispoSearch (cs : List Char) : Bool :=
  searchAt dispoAt none cs

/-- Specification-level statement of the strict keyword test: the word `w`
occurs at some position, case-insensitively, with `\b` boundaries on both
sides (the defaulted character of `getD` is a space, which is not a word
character, so the end of the text is a boundary). -/
def wordOccurs (w : List Char) (cs : List Char) : Prop :=
  ∃ i < cs.length,
    (i = 0 ∨ isWordCh (cs.getD (i - 1) ' ') = false) ∧
    ((cs.drop i).take w.length).map toLowerPy = w ∧
    isWordCh ((cs.drop i).getD w.length ' ') = false

instance wordOccursDecidable (w cs : List Char) :
    Decidable (wordOccurs w cs) := by
  unfold wordOccurs
  infer_instance

lemma wordAt_iff {w cs : List Char} :
    wordAt w cs = true ↔
      (cs.take w.length).map toLowerPy = w ∧
        isWordCh (cs.getD w.length ' ') = false := by
  induction w generalizing cs with
  | nil =>
    cases cs with
    | nil => simp [wordAt, List.getD, show isWordCh ' ' = false from by decide]
    | cons c t => simp [wordAt, List.getD]
  | cons l lt ih =>
    cases cs with
    | nil => simp [wordAt]
    | cons c t =>
      rw [List.length_cons, List.take_succ_cons, List.map_cons,
        List.getD_cons_succ]
      simp only [wordAt, Bool.and_eq_true, beq_iff_eq, ih]
      constructor
      · rintro ⟨h1, h2, h3⟩
        exact ⟨by rw [h1, h2], h3⟩
      · rintro ⟨h12, h3⟩
        injection h12 with ha hb
        exact ⟨ha, hb, h3⟩

lemma searchAt_iff {p : List Char → Bool} {cs : List Char}
    {prev : Option Char} :
    searchAt p prev cs = true ↔
      ∃ i < cs.length,
        boundaryBefore
            (if i = 0 then prev else some (cs.getD (i - 1) ' ')) = true ∧
          p (cs.drop i) = true := by
  induction cs generalizing prev with
  | nil => simp [searchAt]
  | cons c rest ih =>
    rw [searchAt, Bool.or_eq_true, Bool.and_eq_true, ih]
    constructor
    · rintro (⟨hb, hp⟩ | ⟨j, hj, hbj, hpj⟩)
      · exact ⟨0, Nat.succ_pos _, by simpa using hb, by simpa using hp⟩
      · refine ⟨j + 1, Nat.succ_lt_succ hj, ?_, by simpa using hpj⟩
        rw [if_neg (Nat.succ_ne_zero j)]
        cases j with
        | zero => simpa using hbj
        | succ k =>
          rw [Nat.succ_sub_one, List.getD_cons_succ]
          rw [if_neg (Nat.succ_ne_zero k), Nat.succ_sub_one] at hbj
          exact hbj
    · rintro ⟨i, hi, hbi, hpi⟩
      cases i with
      | zero => exact Or.inl ⟨by simpa using hbi, by simpa using hpi⟩
      | succ j =>
        refine Or.inr ⟨j, Nat.lt_of_succ_lt_succ hi, ?_, by simpa using hpi⟩
        rw [if_neg (Nat.succ_ne_zero j), Nat.succ_sub_one] at hbi
        cases j with
        | zero => simpa using hbi
        | succ k =>
          rw [if_neg (Nat.succ_ne_zero k), Nat.succ_sub_one]
          rw [List.getD_cons_succ] at hbi
          exact hbi

lemma hasFoilerWord_iff {cs : List Char} :
    hasFoilerWord cs = true ↔ wordOccurs foilerChars cs := by
  rw [hasFoilerWord, searchAt_iff]
  unfold wordOccurs
  refine exists_congr fun i => ?_
  refine and_congr_right fun _ => ?_
  rw [wordAt_iff]
  constructor
  · rintro ⟨hb, h2, h3⟩
    refine ⟨?_, h2, h3⟩
    cases i with
    | zero => exact Or.inl rfl
    | succ j =>
      rw [if_neg (Nat.succ_ne_zero j)] at hb
      exact Or.inr (by simpa [boundaryBefore] using hb)
  · rintro ⟨hb, h2, h3⟩
    refine ⟨?_, h2, h3⟩
    cases i with
    | zero => simp [boundaryBefore]
    | succ j =>
      rw [if_neg (Nat.succ_ne_zero j)]
      rcases hb with h0 | hw
      · exact absurd h0 (Nat.succ_ne_zero j)
      · simpa [boundaryBefore] using hw

/-! ## The candidate block model and the exclusion classifier
(`is_foiler_block`, monitor.py lines 119–160)

A `Block` carries what the classifier, the extractor and the discovery loop
read from one candidate tile: its visible text (`inner_text`, which can
raise — modelled `none`), the text of the first heading-like descendant
(`h1, h2, h3, .title, [data-testid=card-title]` matches in document order),
its descendant elements with the four attributes the classifier reads, and
the `href` attributes of its `a` descendants in document order (`none` for
an anchor without `href`). -/

structure Elem where
  ariaLabel : Option String
  title : Option String
  alt : Option String
  cls : Option String
deriving DecidableEq

structure Block where
  innerText : Option String
  headings : List String
  descendants : List Elem
  links : List (Option String)
deriving DecidableEq

/-- `v = el.get_attribute(attr); if v and FOILER_RE_STRICT.search(v)` —
a missing or empty attribute is no signal. -/
def attrSignal (v : Option String) : Bool :=
  match v with
  | none => false
  | some t => if t = "" then false else hasFoilerWord t.data

/-- `is_foiler_block` (lines 119–160): the block is excluded iff the strict
whole-word keyword test fires on the normalised visible text, or on an
`aria-label`/`title`/`alt` or `class` attribute of one of the first 12
descendants, or on the `href` of one of the first 8 links (a missing href
reads as `""`).  Each signal is wrapped in `try/except` in the source; a
raising text extraction (`innerText = none`) is treated as no signal. -/
def is_foiler_block (b : Block) : Bool :=
  (match b.innerText with
   | none => false
   | some t => hasFoilerWord (normalizeSpaces t.data)) ||
  ((b.descendants.take 12).any fun e =>
    attrSignal e.ariaLabel || attrSignal e.title || attrSignal e.alt ||
      attrSignal e.cls) ||
  ((b.links.take 8).any fun h => hasFoilerWord (h.getD "").data)

lemma attrSignal_eq {t : String} :
    attrSignal (some t) = hasFoilerWord t.data := by
  by_cases ht : t = ""
  · subst ht
    rfl
  · rw [attrSignal, if_neg ht]

lemma attrSignal_iff {v : Option String} :
    attrSignal v = true ↔ ∃ t, v = some t ∧ wordOccurs foilerChars t.data := by
  cases v with
  | none => simp [attrSignal]
  | some t =>
    rw [attrSignal_eq, hasFoilerWord_iff]
    constructor
    · intro h
      exact ⟨t, rfl, h⟩
    · rintro ⟨u, hu, hocc⟩
      cases hu
      exact hocc

/-- Claim C4: the exclusion classifier returns `true` exactly when the
keyword occurs as a whole word (case-insensitively) in the block's visible
text (after no-break-space normalisation), in an `aria-label`, `title`,
`alt` or `class` attribute of one of the first 12 descendant elements, or
in the `href` of one of the first 8 outbound links. -/
theorem C4_exclusion_classifier :
    ∀ b : Block,
      is_foiler_block b = true ↔
        ((∃ t, b.innerText = some t ∧
            wordOccurs foilerChars (normalizeSpaces t.data)) ∨
          (∃ e ∈ b.descendants.take 12,
            (((∃ t, e.ariaLabel = some t ∧ wordOccurs foilerChars t.data) ∨
                (∃ t, e.title = some t ∧ wordOccurs foilerChars t.data)) ∨
              (∃ t, e.alt = some t ∧ wordOccurs foilerChars t.data)) ∨
            (∃ t, e.cls = some t ∧ wordOccurs foilerChars t.data))) ∨
        (∃ h ∈ b.links.take 8, wordOccurs foilerChars (h.getD "").data) := by
  intro b
  have h1 : (match b.innerText with
      | none => false
      | some t => hasFoilerWord (normalizeSpaces t.data)) = true ↔
      (∃ t, b.innerText = some t ∧
        wordOccurs foilerChars (normalizeSpaces t.data)) := by
    cases hb : b.innerText with
    | none => simp
    | some t => simp [hasFoilerWord_iff]
  have h2 : ((b.descendants.take 12).any fun e =>
      attrSignal e.ariaLabel || attrSignal e.title || attrSignal e.alt ||
        attrSignal e.cls) = true ↔
      ∃ e ∈ b.descendants.take 12,
        (((∃ t, e.ariaLabel = some t ∧ wordOccurs foilerChars t.data) ∨
            (∃ t, e.title = some t ∧ wordOccurs foilerChars t.data)) ∨
          (∃ t, e.alt = some t ∧ wordOccurs foilerChars t.data)) ∨
        (∃ t, e.cls = some t ∧ wordOccurs foilerChars t.data) := by
    simp only [List.any_eq_true, Bool.or_eq_true, attrSignal_iff]
  have h3 : ((b.links.take 8).any fun h =>
      hasFoilerWord (h.getD "").data) = true ↔
      ∃ h ∈ b.links.take 8, wordOccurs foilerChars (h.getD "").data := by
    simp only [List.any_eq_true, hasFoilerWord_iff]
  rw [is_foiler_block]
  simp only [Bool.or_eq_true]
  exact or_congr (or_congr h1 h2) h3

/-- Concrete blocks for the three behaviours named by the claim. -/
def exClassOnly : Block :=
  { innerText := some "Carte X", headings := [],
    descendants := [{ ariaLabel := none, title := none, alt := none,
                      cls := some "badge-foiler" }],
    links := [] }

def exNearMiss : Block :=
  { innerText := some "Les foilers du marche", headings := [],
    descendants := [], links := [] }

def exNoSignal : Block :=
  { innerText := some "Carte unique 1,00 €", headings := [],
    descendants := [{ ariaLabel := some "carte", title := none, alt := none,
                      cls := some "tile" }],
    links := [some "/cards/abc"] }

/-- Witness for the claim C4 theorem: a keyword hidden only in a class
attribute is excluded; a near-miss substring (`foilers`, which fails the
trailing word boundary) is not; a block with no signal anywhere is not. -/
theorem C4_exclusion_classifier_witness :
    is_foiler_block exClassOnly = true ∧
    is_foiler_block exNearMiss = false ∧
    is_foiler_block exNoSignal = false := by
  refine ⟨(C4_exclusion_classifier exClassOnly).2 ?_, ?_, ?_⟩
  · refine Or.inl (Or.inr ?_)
    refine ⟨{ ariaLabel := none, title := none, alt := none,
              cls := some "badge-foiler" }, by decide, ?_⟩
    exact Or.inr ⟨"badge-foiler", rfl, by decide⟩
  · cases hf : is_foiler_block exNearMiss with
    | false => rfl
    | true =>
      rcases (C4_exclusion_classifier exNearMiss).1 hf with
        (⟨t, ht, hw⟩ | ⟨e, he, -⟩) | ⟨h, hh, -⟩
      · rw [show exNearMiss.innerText = some "Les foilers du marche"
            from rfl] at ht
        cases ht
        exact absurd hw (by decide)
      · simp [exNearMiss] at he
      · simp [exNearMiss] at hh
  · cases hf : is_foiler_block exNoSignal with
    | false => rfl
    | true =>
      rcases (C4_exclusion_classifier exNoSignal).1 hf with
        (⟨t, ht, hw⟩ | ⟨e, he, hsig⟩) | ⟨h, hh, hw⟩
      · rw [show exNoSignal.innerText = some "Carte unique 1,00 €"
            from rfl] at ht
        cases ht
        exact absurd hw (by decide)
      · have he' : e = ⟨some "carte", none, none, some "tile"⟩ := by
          have := List.mem_singleton.1 (by simpa [exNoSignal] using he)
          exact this
        subst he'
        rcases hsig with ((⟨t, ht, hw⟩ | ⟨t, ht, hw⟩) | ⟨t, ht, hw⟩) |
          ⟨t, ht, hw⟩
        · cases ht
          exact absurd hw (by decide)
        · exact absurd ht (by simp)
        · exact absurd ht (by simp)
        · cases ht
          exact absurd hw (by decide)
      · have hh' : h = some "/cards/abc" := by
          have := List.mem_singleton.1 (by simpa [exNoSignal] using hh)
          exact this
        subst hh'
        exact absurd hw (by decide)

/-! ## URL helpers and the item extractor
(`abs_url` lines 111–116, `extract_title_price_url` lines 240–290)

`urljoin` of `urllib` is an external library: it enters the model as the
`join` parameter.  The extractor reads the block's text, title candidates
and links; prices are parsed with `parse_price`. -/

/-- Does `sub` occur at the head of `cs` (character-exact)? -/
def startsWithL (sub cs : List Char) : Bool :=
  match sub, cs with
  | [], _ => true
  | _ :: _, [] => false
  | a :: s, c :: t => (a == c) && startsWithL s t

/-- Python's `sub in s` substring test. -/
def containsSub : List Char → List Char → Bool
  | [], sub => startsWithL sub []
  | c :: t, sub => startsWithL sub (c :: t) || containsSub t sub

/-- Python `str.upper` on the relevant character range. -/
def toUpperPy (c : Char) : Char :=
  if 'a' ≤ c ∧ c ≤ 'z' then Char.ofNat (c.toNat - 32)
  else if c = 'à' then 'À' else if c = 'â' then 'Â' else if c = 'ä' then 'Ä'
  else if c = 'é' then 'É' else if c = 'è' then 'È' else if c = 'ê' then 'Ê'
  else if c = 'ë' then 'Ë' else if c = 'î' then 'Î' else if c = 'ï' then 'Ï'
  else if c = 'ô' then 'Ô' else if c = 'ö' then 'Ö' else if c = 'ù' then 'Ù'
  else if c = 'û' then 'Û' else if c = 'ü' then 'Ü' else if c = 'ç' then 'Ç'
  else c

/-- Python `str.strip()`. -/
def stripPy (cs : List Char) : List Char :=
  ((cs.dropWhile isSpaceRe).reverse.dropWhile isSpaceRe).reverse

/-- The line-break characters of Python `str.splitlines()`. -/
def isLineBreak (c : Char) : Bool :=
  ['\n', '\r', '\x0b', '\x0c', '\x1c', '\x1d', '\x1e', '\x85',
   '\u2028', '\u2029'].contains c

lemma dropWhile_cons_length {p : Char → Bool} {cs t : List Char} {x : Char}
    (h : cs.dropWhile p = x :: t) : t.length < cs.length := by
  have hle := (List.dropWhile_sublist (l := cs) p).length_le
  rw [h] at hle
  simp only [List.length_cons] at hle
  omega

/-- Python `str.splitlines()` (`\r\n` counts as one break; no trailing empty
line for a trailing break). -/
def splitLinesPy (cs : List Char) : List (List Char) :=
  match cs with
  | [] => []
  | c0 :: t0 =>
    let line := (c0 :: t0).takeWhile fun c => !isLineBreak c
    match hr : (c0 :: t0).dropWhile (fun c => !isLineBreak c) with
    | [] => [line]
    | '\r' :: '\n' :: t => line :: splitLinesPy t
    | _ :: t => line :: splitLinesPy t
termination_by cs.length
decreasing_by
  · exact Nat.lt_of_succ_lt (dropWhile_cons_length hr)
  · exact dropWhile_cons_length hr

/-- `href or TARGET_URL`-style fallback: `None` and `""` are falsy. -/
def orUrl (o : Option String) (d : String) : String :=
  match o with
  | none => d
  | some u => if u = "" then d else u

/-- `abs_url` (lines 111–116): `None`/`""` propagate as no URL, an
`http…` target is returned as is, anything else is joined onto the base. -/
def abs_url (join : String → String → String) (base : String)
    (href : Option String) : Option String :=
  match href with
  | none => none
  | some h =>
    if h = "" then none
    else if startsWithL ("http".data) h.data then some h
    else some (join base h)

/-- The CSS filter `a[href*="/cards/"]`: href attribute present and
containing the detail-page path marker. -/
def hrefHasCards (h : String) : Bool := containsSub h.data ("/cards/".data)

/-- An anchor qualifying for the `a[href*="/cards/"]` selector. -/
def isCardsLink (h : Option String) : Bool :=
  match h with
  | some v => hrefHasCards v
  | none => false

/-- The fallback of lines 275–286: the first link whose href is non-empty
and whose lowercased target contains neither `foiler` nor `disponible`. -/
def cleanLinks (join : String → String → String) (base : String) :
    List (Option String) → Option String
  | [] => none
  | none :: t => cleanLinks join base t
  | some h :: t =>
    if h = "" then cleanLinks join base t
    else if containsSub (h.data.map toLowerPy) ("foiler".data) ||
        containsSub (h.data.map toLowerPy) ("disponible".data) then
      cleanLinks join base t
    else abs_url join base (some h)

/-- The link resolution of `extract_title_price_url` (lines 267–288): the
first `a[href*="/cards/"]` anchor if any — with no keyword filtering — else
the first clean link, else no URL. -/
def extractLink (join : String → String → String) (base : String)
    (links : List (Option String)) : Option String :=
  match links.find? isCardsLink with
  | some h => abs_url join base h
  | none => cleanLinks join base links

/-- A line acceptable as a fallback title (lines 260–265): does not contain
`À PARTIR`, `ACHETER` or `VENDRE` uppercased, and is not an offer line. -/
def titleLineOk (l : List Char) : Bool :=
  !containsSub (l.map toUpperPy) ("À PARTIR".data) &&
  !containsSub (l.map toUpperPy) ("ACHETER".data) &&
  !containsSub (l.map toUpperPy) ("VENDRE".data) &&
  !dispoSearch l

/-- Title resolution (lines 251–265): the first heading-like descendant's
stripped text if present and non-empty, else the first acceptable non-empty
stripped line of the block text, else the placeholder. -/
def titleOf (b : Block) (txt : List Char) : String :=
  let fromLines : String :=
    match (((splitLinesPy txt).map stripPy).filter
        fun l => !l.isEmpty).find? titleLineOk with
    | some l => String.mk l
    | none => "Carte unique"
  match b.headings with
  | [] => fromLines
  | h :: _ =>
    let t := stripPy h.data
    if t.isEmpty then fromLines else String.mk t

/-- The normalized record produced by the extractor. -/
structure ItemRecord where
  title : String
  price : ℚ
  detail_url : Option String
deriving DecidableEq

/-- `extract_title_price_url` (lines 240–290): no value when the text
extraction raises (`PWTimeout`), when the block is an internal offer line,
or when no price parses; otherwise the record with resolved title and
link. -/
def extract_title_price_url (join : String → String → String)
    (base : String) (b : Block) : Option ItemRecord :=
  match b.innerText with
  | none => none
  | some txt =>
    if dispoSearch txt.data then none
    else
      match parse_price txt with
      | none => none
      | some price =>
        some { title := titleOf b txt.data, price := price,
               detail_url := extractLink join base b.links }

/-! ### Claim C9: the link resolution order -/

/-- Modelled from the spec (§4.3 link resolution order), for comparison
with the implementation: (a) the first outbound link whose target contains
the detail-page marker AND does not contain the exclusion keyword or the
offer marker; (b) else the first outbound link not matching those
exclusions; (c) else no URL. -/
def specLinkResolution (join : String → String → String) (base : String)
    (links : List (Option String)) : Option String :=
  match links.find? (fun h =>
      match h with
      | some v => hrefHasCards v &&
          !containsSub (v.data.map toLowerPy) ("foiler".data) &&
          !containsSub (v.data.map toLowerPy) ("disponible".data)
      | none => false) with
  | some h => abs_url join base h
  | none => cleanLinks join base links

/-- A candidate whose first `/cards/` link contains the exclusion keyword:
here the spec's resolution order and the code's disagree. -/
def cxBlock : Block :=
  { innerText := some "Carte Y\nÀ PARTIR DE 2 €\nACHETER",
    headings := ["Carte Y"],
    descendants := [],
    links := [some "/cards/foiler-promo", some "/marketplace/item9"] }

/-- A concrete join function standing for `urljoin` in the counterexample. -/
def cxJoin : String → String → String := fun b h => b ++ h

lemma extract_eq_none_of_innerText (join : String → String → String)
    (base : String) (b : Block) (hb : b.innerText = none) :
    extract_title_price_url join base b = none := by
  rw [extract_title_price_url, hb]

lemma extract_eq_of_innerText (join : String → String → String)
    (base : String) (b : Block) (txt : String) (hb : b.innerText = some txt) :
    extract_title_price_url join base b
      = (if dispoSearch txt.data then none
         else
           match parse_price txt with
           | none => none
           | some price =>
             some { title := titleOf b txt.data, price := price,
                    detail_url := extractLink join base b.links }) := by
  rw [extract_title_price_url, hb]

/-- Counterexample to claim C9 as stated: on a block whose first
detail-marker link contains the exclusion keyword, the code returns that
link (branch (a) of the implementation applies no keyword filter), while
the spec's order returns the later clean link. -/
theorem C9_link_resolution_counterexample :
    (extract_title_price_url cxJoin "https://x" cxBlock).map
        (fun d => d.detail_url) = some (some "https://x/cards/foiler-promo") ∧
    specLinkResolution cxJoin "https://x" cxBlock.links
      = some "https://x/marketplace/item9" ∧
    ¬((extract_title_price_url cxJoin "https://x" cxBlock).map
        (fun d => d.detail_url)
      = some (specLinkResolution cxJoin "https://x" cxBlock.links)) := by
  refine ⟨by decide, by decide, by decide⟩

lemma find?_least {α : Type} (p : α → Bool) (l : List α) (k : Nat)
    (hk : k < l.length) (hp : p (l.get ⟨k, hk⟩) = true)
    (hmin : ∀ j (hj : j < l.length), j < k → p (l.get ⟨j, hj⟩) = false) :
    l.find? p = some (l.get ⟨k, hk⟩) := by
  induction l generalizing k with
  | nil => exact absurd hk (by simp)
  | cons a t ih =>
    cases k with
    | zero =>
      have hpa : p a = true := hp
      simp [List.find?_cons, hpa]
    | succ j =>
      have h0 : p a = false := hmin 0 (Nat.succ_pos _) (Nat.succ_pos _)
      have ht := ih j (Nat.lt_of_succ_lt_succ hk) hp fun m hm hmk =>
        hmin (m + 1) (Nat.succ_lt_succ hm) (Nat.succ_lt_succ hmk)
      simp [List.find?_cons, h0, ht]

/-- Claim C9, amended as the counterexample forces: branch (a) takes the
first link containing the detail marker with no keyword or offer filtering;
branch (b) takes the first non-empty link free of the keyword and the offer
marker; branch (c) leaves no URL (the discovery loop substitutes the listing
URL); relative links are resolved through the join on the listing URL; and
every record the extractor yields carries exactly this resolution. -/
theorem C9_link_resolution_amended :
    (∀ (join : String → String → String) (base : String)
        (links : List (Option String)) (k : Nat) (hk : k < links.length),
      isCardsLink (links.get ⟨k, hk⟩) = true →
      (∀ j (hj : j < links.length), j < k →
        isCardsLink (links.get ⟨j, hj⟩) = false) →
      extractLink join base links = abs_url join base (links.get ⟨k, hk⟩)) ∧
    (∀ (join : String → String → String) (base : String)
        (links : List (Option String)),
      (∀ h ∈ links, isCardsLink h = false) →
      extractLink join base links = cleanLinks join base links) ∧
    (∀ (join : String → String → String) (base : String) (h : String)
        (t : List (Option String)),
      cleanLinks join base (none :: t) = cleanLinks join base t ∧
      (h ≠ "" →
        containsSub (h.data.map toLowerPy) ("foiler".data) = false →
        containsSub (h.data.map toLowerPy) ("disponible".data) = false →
        cleanLinks join base (some h :: t) = abs_url join base (some h)) ∧
      (containsSub (h.data.map toLowerPy) ("foiler".data) = true ∨
          containsSub (h.data.map toLowerPy) ("disponible".data) = true →
        cleanLinks join base (some h :: t) = cleanLinks join base t)) ∧
    (∀ (join : String → String → String) (base : String) (h : String),
      h ≠ "" → startsWithL ("http".data) h.data = false →
      abs_url join base (some h) = some (join base h)) ∧
    (∀ (join : String → String → String) (base : String) (b : Block)
        (d : ItemRecord),
      extract_title_price_url join base b = some d →
      d.detail_url = extractLink join base b.links) := by
  refine ⟨?_, ?_, ?_, ?_, ?_⟩
  · intro join base links k hk hp hmin
    rw [extractLink, find?_least isCardsLink links k hk hp hmin]
  · intro join base links hnone
    rw [extractLink, List.find?_eq_none.2 fun x hx => by rw [hnone x hx]; simp]
  · intro join base h t
    refine ⟨rfl, ?_, ?_⟩
    · intro hne hf hd
      rw [cleanLinks, if_neg hne, if_neg (by rw [hf, hd]; simp)]
    · intro hor
      by_cases hne : h = ""
      · subst hne
        rcases hor with hf | hf <;> exact absurd hf (by decide)
      · have hcond : (containsSub (h.data.map toLowerPy) ("foiler".data) ||
            containsSub (h.data.map toLowerPy) ("disponible".data)) = true := by
          rcases hor with hf | hf
          · rw [hf]
            rfl
          · rw [hf]
            simp
        rw [cleanLinks, if_neg hne, if_pos hcond]
  · intro join base h hne hhttp
    rw [abs_url, if_neg hne, if_neg (by rw [hhttp]; simp)]
  · intro join base b d hd
    cases hb : b.innerText with
    | none =>
      rw [extract_eq_none_of_innerText join base b hb] at hd
      exact absurd hd (by simp)
    | some txt =>
      rw [extract_eq_of_innerText join base b txt hb] at hd
      split_ifs at hd with hdis
      rcases hp : parse_price txt with _ | price
      · rw [hp] at hd
        exact absurd hd (by simp)
      · rw [hp] at hd
        cases hd
        rfl

/-- Witness for the amended C9 theorem at concrete inputs. -/
theorem C9_link_resolution_amended_witness :
    extractLink cxJoin "https://x"
        [none, some "/a", some "/cards/z"] = some "https://x/cards/z" ∧
    cleanLinks cxJoin "https://x" [some "/ok"] = some "https://x/ok" ∧
    abs_url cxJoin "https://x" (some "/rel") = some "https://x/rel" := by
  refine ⟨?_, ?_, ?_⟩
  · have h := C9_link_resolution_amended.1 cxJoin "https://x"
      [none, some "/a", some "/cards/z"] 2 (by decide) (by rfl)
      (fun j hj hlt => by
        interval_cases j <;> rfl)
    rw [h]
    decide
  · have h := (C9_link_resolution_amended.2.2.1 cxJoin "https://x" "/ok" []).2.1
      (by decide) (by decide) (by decide)
    rw [h]
    decide
  · exact C9_link_resolution_amended.2.2.2.1 cxJoin "https://x" "/rel"
      (by decide) (by decide)

/-! ## Detail-page resolution and anti-Foiler verification
(`resolve_to_card_detail` lines 163–206, `verify_not_foiler_by_detail`
lines 209–237)

Both functions drive the browser to fetch further pages; the fetches are
external collaborators, supplied as oracles from URL to outcome.  `urlparse`
path extraction is modelled for the http(s) and relative URLs the program
handles (exotic schemes and protocol-relative references do not occur). -/

/-- Drop everything up to and including the first `://`. -/
def afterSchemeMarker : List Char → List Char
  | [] => []
  | c :: t =>
    if startsWithL ("://".data) (c :: t) then t.drop 2
    else afterSchemeMarker t

/-- The `path` component of `urlparse(u)`: for an absolute URL, from the
first `/` after the authority; for a scheme-less reference, the reference
itself; in both cases query and fragment are stripped. -/
def urlPath (u : String) : List Char :=
  if containsSub u.data ("://".data) then
    ((afterSchemeMarker u.data).dropWhile fun c => !(c == '/')).takeWhile
      fun c => !(c == '?' || c == '#')
  else
    u.data.takeWhile fun c => !(c == '?' || c == '#')

/-- Outcome of the page fetch `resolve_to_card_detail` performs on a
non-`/cards/` URL: navigation failure (any exception — the function then
returns the input URL), or the page's canonical link and first
`a[href*="/cards/"]` href. -/
inductive ResolveFetch where
  | navFailed
  | ok (canonical : Option String) (firstCardsHref : Option String)
deriving DecidableEq

/-- Outcome of the detail-page fetch of `verify_not_foiler_by_detail`:
navigation failure (verification fails), or the visibility of a `Foiler`
text locator together with the body text (`none` when `inner_text("body")`
raises; the code then uses `""`). -/
inductive DetailFetch where
  | navFailed
  | ok (foilerVisible : Bool) (bodyText : Option String)
deriving DecidableEq

/-- The two page-fetch oracles used by the verification path. -/
structure VerifyEnv where
  resolveFetch : String → ResolveFetch
  detailFetch : String → DetailFetch

/-- Lines 191–200: prefer the first `/cards/` link of the opened page,
else fall back to the page's own URL. -/
def cardsLinkOrSelf (join : String → String → String) (u : String)
    (firstCards : Option String) : Option String :=
  match firstCards with
  | some h => abs_url join u (some h)
  | none => some u

/-- `resolve_to_card_detail` (lines 163–206). -/
def resolve_to_card_detail (join : String → String → String)
    (fetch : String → ResolveFetch) (url : Option String) : Option String :=
  match url with
  | none => none
  | some u =>
    if u = "" then none
    else if containsSub (urlPath u) ("/cards/".data) then some u
    else
      match fetch u with
      | ResolveFetch.navFailed => some u
      | ResolveFetch.ok canonical firstCards =>
        match canonical with
        | some c =>
          if c ≠ "" ∧ containsSub c.data ("/cards/".data) = true then
            abs_url join u (some c)
          else cardsLinkOrSelf join u firstCards
        | none => cardsLinkOrSelf join u firstCards

/-- `verify_not_foiler_by_detail` (lines 209–237): `true` only when the
resolved detail page loads, shows no visible `Foiler` text, and its
lowercased body does not contain the keyword; every failure path —
missing URL, navigation error, timeout — yields `false`. -/
def verify_not_foiler_by_detail (join : String → String → String)
    (venv : VerifyEnv) (url : Option String) : Bool :=
  match url with
  | none => false
  | some u =>
    if u = "" then false
    else
      match resolve_to_card_detail join venv.resolveFetch (some u) with
      | none => false
      | some detail =>
        match venv.detailFetch detail with
        | DetailFetch.navFailed => false
        | DetailFetch.ok fv bt =>
          !(fv || containsSub ((bt.getD "").data.map toLowerPy)
              ("foiler".data))

/-! ## The incremental scroll discovery loop
(`find_first_non_foiler_with_scroll`, lines 293–423)

The page after `n` scroll-and-pause actions is an oracle `env n` giving the
candidate blocks matched by the `ACHETER`/`À PARTIR DE` locator and the
document height.  The loop state mirrors the local variables of the source;
`classified` and `extracted` additionally record, for the claims about
filtering order, the candidate indices on which `is_foiler_block` and
`extract_title_price_url` were invoked. -/

structure ScrollCfg where
  maxSteps : Nat
  noGrowthRetries : Nat
  noHeightRetries : Nat
  verifyBelow : ℚ
  targetUrl : String

structure PageState where
  cands : List Block
  height : Nat

structure ScanState where
  seen : Nat
  leadingFoiler : Nat
  firstSeen : Bool
  classified : List Nat
  extracted : List Nat
deriving DecidableEq

structure Found where
  idx : Nat
  title : String
  price : ℚ
  url : String
deriving DecidableEq

/-- The `first_seen` diagnostic of lines 334–347: on the very first
candidate the loop logs its nature; for a non-offer line this invokes the
classifier once and counts a leading Foiler. -/
def firstSeenDiag (item : Block) (st : ScanState) : ScanState :=
  if st.firstSeen then
    if dispoSearch ((item.innerText).getD "").data then
      { st with firstSeen := false }
    else if is_foiler_block item then
      { st with
        firstSeen := false
        leadingFoiler := st.leadingFoiler + 1
        classified := st.classified ++ [st.seen] }
    else
      { st with
        firstSeen := false
        classified := st.classified ++ [st.seen] }
  else st

/-- State after skipping an internal offer line (lines 353–355): only the
`first_seen` diagnostic ran; the index advances. -/
def dispoSkipState (item : Block) (st : ScanState) : ScanState :=
  { firstSeenDiag item st with seen := st.seen + 1 }

/-- State after the classifier was invoked on the current candidate
(line 357): the invocation is recorded. -/
def classifyState (item : Block) (st : ScanState) : ScanState :=
  let st0 := firstSeenDiag item st
  { st0 with classified := st0.classified ++ [st.seen] }

/-- State after skipping a Foiler block (lines 357–362): a contiguous
leading Foiler is counted; the index advances. -/
def foilerSkipState (item : Block) (st : ScanState) : ScanState :=
  let st1 := classifyState item st
  let st2 :=
    if st1.leadingFoiler = st.seen then
      { st1 with leadingFoiler := st1.leadingFoiler + 1 }
    else st1
  { st2 with seen := st.seen + 1 }

/-- State after the extractor was invoked (lines 364–365): the invocation
is recorded and the index advances. -/
def extractState (item : Block) (st : ScanState) : ScanState :=
  let st1 := classifyState item st
  { st1 with
    extracted := st1.extracted ++ [st.seen]
    seen := st.seen + 1 }

/-- The inner scan of lines 331–384: walk the not-yet-seen candidates in
document order; skip offer lines and Foiler blocks, extract the rest, and
verify a low-priced extraction against its detail page before accepting. -/
def scanStep (cfg : ScrollCfg) (join : String → String → String)
    (venv : VerifyEnv) (cands : List Block) (st : ScanState) :
    ScanState ⊕ (ScanState × Found) :=
  if h : st.seen < cands.length then
    let item := cands.get ⟨st.seen, h⟩
    if dispoSearch ((item.innerText).getD "").data then
      scanStep cfg join venv cands (dispoSkipState item st)
    else if is_foiler_block item then
      scanStep cfg join venv cands (foilerSkipState item st)
    else
      match extract_title_price_url join cfg.targetUrl item with
      | none => scanStep cfg join venv cands (extractState item st)
      | some data =>
        if data.price ≤ cfg.verifyBelow then
          if verify_not_foiler_by_detail join venv
              (resolve_to_card_detail join venv.resolveFetch
                data.detail_url) then
            Sum.inr (extractState item st,
              { idx := st.seen
                title := data.title
                price := data.price
                url := orUrl (resolve_to_card_detail join venv.resolveFetch
                  data.detail_url) cfg.targetUrl })
          else scanStep cfg join venv cands (extractState item st)
        else
          Sum.inr (extractState item st,
            { idx := st.seen
              title := data.title
              price := data.price
              url := orUrl data.detail_url cfg.targetUrl })
  else Sum.inl st
termination_by cands.length - st.seen
decreasing_by
  all_goals simp [dispoSkipState, foilerSkipState, extractState]
  all_goals omega

structure LoopState where
  scan : ScanState
  lastTotal : Nat
  noGrowth : Nat
  noHeight : Nat
  steps : Nat
  prevHeight : Nat
  scrolls : Nat
deriving DecidableEq

/-- One expansion step (lines 390–414): scroll to the bottom (the page
evaluation returns the height from before the scroll), pause, re-query the
candidate count and the height, and update the two stall counters.  The
height comparison is against `prev_height` from the previous iteration, so
it spans two scrolls. -/
def loopAdvance (env : Nat → PageState) (st : LoopState) (sc : ScanState) :
    LoopState :=
  let grew := decide (st.lastTotal < (env (st.scrolls + 1)).cands.length)
  let heightGrew := decide (st.prevHeight < (env (st.scrolls + 1)).height)
  { scan := sc
    lastTotal := if grew then (env (st.scrolls + 1)).cands.length
      else st.lastTotal
    noGrowth := if grew then 0 else st.noGrowth + 1
    noHeight := if heightGrew then 0 else st.noHeight + 1
    steps := st.steps + 1
    prevHeight := (env st.scrolls).height
    scrolls := st.scrolls + 1 }

/-- The stop test of line 416: both counters at their thresholds. -/
def stopCond (cfg : ScrollCfg) (st : LoopState) : Bool :=
  decide (cfg.noGrowthRetries ≤ st.noGrowth) &&
    decide (cfg.noHeightRetries ≤ st.noHeight)

inductive Outcome where
  | found (f : Found)
  | stopMax
  | stopNoGrowth
deriving DecidableEq

/-- The outer `while True` of lines 327–418. -/
def scrollLoop (cfg : ScrollCfg) (join : String → String → String)
    (venv : VerifyEnv) (env : Nat → PageState) (st : LoopState) :
    Outcome × LoopState :=
  match scanStep cfg join venv (env st.scrolls).cands st.scan with
  | Sum.inr (sc, f) => (Outcome.found f, { st with scan := sc })
  | Sum.inl sc =>
    if cfg.maxSteps ≤ st.steps then (Outcome.stopMax, { st with scan := sc })
    else
      let st' := loopAdvance env st sc
      if stopCond cfg st' then (Outcome.stopNoGrowth, st')
      else scrollLoop cfg join venv env st'
termination_by cfg.maxSteps + 1 - st.steps
decreasing_by
  simp_all [loopAdvance]
  omega

/-- `find_first_non_foiler_with_scroll` (lines 293–423): the initial counts
are taken before the first scroll, `prev_height` is the height before the
first scroll, and the loop starts after one scroll-and-pause. -/
def find_first_non_foiler_with_scroll (cfg : ScrollCfg)
    (join : String → String → String) (venv : VerifyEnv)
    (env : Nat → PageState) : Outcome × LoopState :=
  scrollLoop cfg join venv env
    { scan :=
        { seen := 0
          leadingFoiler := 0
          firstSeen := true
          classified := []
          extracted := [] }
      lastTotal := (env 0).cands.length
      noGrowth := 0
      noHeight := 0
      steps := 0
      prevHeight := (env 0).height
      scrolls := 1 }

/-- The per-candidate acceptance test the scan implements: not an offer
line, not excluded, extractable, and — when the price is at or below the
verification threshold — verified on the detail page. -/
def qualifies (cfg : ScrollCfg) (join : String → String → String)
    (venv : VerifyEnv) (b : Block) : Bool :=
  !dispoSearch ((b.innerText).getD "").data &&
  !is_foiler_block b &&
  (match extract_title_price_url join cfg.targetUrl b with
   | none => false
   | some d =>
     if d.price ≤ cfg.verifyBelow then
       verify_not_foiler_by_detail join venv
         (resolve_to_card_detail join venv.resolveFetch d.detail_url)
     else true)

/-- The record the scan returns for a qualifying candidate at index `i`. -/
def expectedFound (cfg : ScrollCfg) (join : String → String → String)
    (venv : VerifyEnv) (i : Nat) (b : Block) : Option Found :=
  match extract_title_price_url join cfg.targetUrl b with
  | none => none
  | some d =>
    if d.price ≤ cfg.verifyBelow then
      some
        { idx := i
          title := d.title
          price := d.price
          url := orUrl (resolve_to_card_detail join venv.resolveFetch
            d.detail_url) cfg.targetUrl }
    else
      some
        { idx := i
          title := d.title
          price := d.price
          url := orUrl d.detail_url cfg.targetUrl }

/-! ### Lemmas about the inner scan -/

lemma firstSeenDiag_seen (item : Block) (st : ScanState) :
    (firstSeenDiag item st).seen = st.seen := by
  unfold firstSeenDiag
  split_ifs <;> rfl

lemma dispoSkipState_seen (item : Block) (st : ScanState) :
    (dispoSkipState item st).seen = st.seen + 1 := rfl

lemma foilerSkipState_seen (item : Block) (st : ScanState) :
    (foilerSkipState item st).seen = st.seen + 1 := rfl

lemma extractState_seen (item : Block) (st : ScanState) :
    (extractState item st).seen = st.seen + 1 := rfl

lemma scanStep_stop (cfg : ScrollCfg) (join : String → String → String)
    (venv : VerifyEnv) (cands : List Block) (st : ScanState)
    (h : ¬ st.seen < cands.length) :
    scanStep cfg join venv cands st = Sum.inl st := by
  rw [scanStep, dif_neg h]

lemma scanStep_lt (cfg : ScrollCfg) (join : String → String → String)
    (venv : VerifyEnv) (cands : List Block) (st : ScanState)
    (h : st.seen < cands.length) :
    scanStep cfg join venv cands st =
      (if dispoSearch (((cands.get ⟨st.seen, h⟩).innerText).getD "").data then
        scanStep cfg join venv cands
          (dispoSkipState (cands.get ⟨st.seen, h⟩) st)
      else if is_foiler_block (cands.get ⟨st.seen, h⟩) then
        scanStep cfg join venv cands
          (foilerSkipState (cands.get ⟨st.seen, h⟩) st)
      else
        match extract_title_price_url join cfg.targetUrl
            (cands.get ⟨st.seen, h⟩) with
        | none =>
          scanStep cfg join venv cands
            (extractState (cands.get ⟨st.seen, h⟩) st)
        | some data =>
          if data.price ≤ cfg.verifyBelow then
            if verify_not_foiler_by_detail join venv
                (resolve_to_card_detail join venv.resolveFetch
                  data.detail_url) then
              Sum.inr (extractState (cands.get ⟨st.seen, h⟩) st,
                { idx := st.seen
                  title := data.title
                  price := data.price
                  url := orUrl (resolve_to_card_detail join venv.resolveFetch
                    data.detail_url) cfg.targetUrl })
            else
              scanStep cfg join venv cands
                (extractState (cands.get ⟨st.seen, h⟩) st)
          else
            Sum.inr (extractState (cands.get ⟨st.seen, h⟩) st,
              { idx := st.seen
                title := data.title
                price := data.price
                url := orUrl data.detail_url cfg.targetUrl })) := by
  rw [scanStep, dif_pos h]

lemma qualifies_true_cases {cfg : ScrollCfg} {join : String → String → String}
    {venv : VerifyEnv} {b : Block}
    (hq : qualifies cfg join venv b = true) :
    dispoSearch ((b.innerText).getD "").data = false ∧
    is_foiler_block b = false ∧
    ∃ d, extract_title_price_url join cfg.targetUrl b = some d ∧
      (d.price ≤ cfg.verifyBelow →
        verify_not_foiler_by_detail join venv
          (resolve_to_card_detail join venv.resolveFetch d.detail_url)
          = true) := by
  unfold qualifies at hq
  by_cases hd : dispoSearch ((b.innerText).getD "").data = true
  · rw [hd] at hq
    exact absurd hq (by simp)
  · rw [Bool.not_eq_true] at hd
    rw [hd] at hq
    by_cases hf : is_foiler_block b = true
    · rw [hf] at hq
      exact absurd hq (by simp)
    · rw [Bool.not_eq_true] at hf
      rw [hf] at hq
      refine ⟨hd, hf, ?_⟩
      simp only [Bool.not_false, Bool.true_and] at hq
      rcases he : extract_title_price_url join cfg.targetUrl b with _ | d
      · simp only [he] at hq
        exact absurd hq (by simp)
      · simp only [he] at hq
        refine ⟨d, rfl, fun hple => ?_⟩
        rw [if_pos hple] at hq
        exact hq

lemma qualifies_false_verify {cfg : ScrollCfg}
    {join : String → String → String} {venv : VerifyEnv} {b : Block}
    {d : ItemRecord}
    (hd : dispoSearch ((b.innerText).getD "").data = false)
    (hf : is_foiler_block b = false)
    (he : extract_title_price_url join cfg.targetUrl b = some d)
    (hq : qualifies cfg join venv b = false) :
    d.price ≤ cfg.verifyBelow ∧
      verify_not_foiler_by_detail join venv
        (resolve_to_card_detail join venv.resolveFetch d.detail_url)
        = false := by
  unfold qualifies at hq
  rw [hd, hf] at hq
  simp only [he, Bool.not_false, Bool.true_and] at hq
  split_ifs at hq with hple
  exact ⟨hple, hq⟩

lemma scanStep_no_qualify (cfg : ScrollCfg) (join : String → String → String)
    (venv : VerifyEnv) (cands : List Block) :
    ∀ st : ScanState,
      (∀ i (hi : i < cands.length), st.seen ≤ i →
        qualifies cfg join venv (cands.get ⟨i, hi⟩) = false) →
      ∃ sc, scanStep cfg join venv cands st = Sum.inl sc := by
  suffices H : ∀ n (st : ScanState), cands.length - st.seen ≤ n →
      (∀ i (hi : i < cands.length), st.seen ≤ i →
        qualifies cfg join venv (cands.get ⟨i, hi⟩) = false) →
      ∃ sc, scanStep cfg join venv cands st = Sum.inl sc by
    exact fun st hq => H (cands.length - st.seen) st (le_refl _) hq
  intro n
  induction n with
  | zero =>
    intro st hn hq
    exact ⟨st, scanStep_stop cfg join venv cands st (by omega)⟩
  | succ m ih =>
    intro st hn hq
    by_cases h : st.seen < cands.length
    · rw [scanStep_lt cfg join venv cands st h]
      have hq0 := hq st.seen h (le_refl _)
      have hnext : ∀ (st' : ScanState), st'.seen = st.seen + 1 →
          cands.length - st'.seen ≤ m ∧
          ∀ i (hi : i < cands.length), st'.seen ≤ i →
            qualifies cfg join venv (cands.get ⟨i, hi⟩) = false := by
        intro st' hs
        refine ⟨by omega, fun i hi hge => hq i hi (by omega)⟩
      by_cases hd : dispoSearch
          (((cands.get ⟨st.seen, h⟩).innerText).getD "").data = true
      · rw [if_pos hd]
        rcases hnext (dispoSkipState (cands.get ⟨st.seen, h⟩) st)
          (dispoSkipState_seen _ _) with ⟨hm, hq'⟩
        exact ih (dispoSkipState (cands.get ⟨st.seen, h⟩) st) hm hq'
      · rw [if_neg hd]
        rw [Bool.not_eq_true] at hd
        by_cases hf : is_foiler_block (cands.get ⟨st.seen, h⟩) = true
        · rw [if_pos hf]
          rcases hnext (foilerSkipState (cands.get ⟨st.seen, h⟩) st)
            (foilerSkipState_seen _ _) with ⟨hm, hq'⟩
          exact ih (foilerSkipState (cands.get ⟨st.seen, h⟩) st) hm hq'
        · rw [if_neg hf]
          rw [Bool.not_eq_true] at hf
          rcases he : extract_title_price_url join cfg.targetUrl
              (cands.get ⟨st.seen, h⟩) with _ | d
          · simp only [he]
            rcases hnext (extractState (cands.get ⟨st.seen, h⟩) st)
              (extractState_seen _ _) with ⟨hm, hq'⟩
            exact ih (extractState (cands.get ⟨st.seen, h⟩) st) hm hq'
          · simp only [he]
            rcases qualifies_false_verify hd hf he hq0 with ⟨hple, hv⟩
            rw [if_pos hple, if_neg (by rw [hv]; exact Bool.false_ne_true)]
            rcases hnext (extractState (cands.get ⟨st.seen, h⟩) st)
              (extractState_seen _ _) with ⟨hm, hq'⟩
            exact ih (extractState (cands.get ⟨st.seen, h⟩) st) hm hq'
    · exact ⟨st, scanStep_stop cfg join venv cands st h⟩

lemma scanStep_accept (cfg : ScrollCfg) (join : String → String → String)
    (venv : VerifyEnv) (cands : List Block) (st : ScanState)
    (h : st.seen < cands.length)
    (hq : qualifies cfg join venv (cands.get ⟨st.seen, h⟩) = true) :
    ∃ sc f, scanStep cfg join venv cands st = Sum.inr (sc, f) ∧
      f.idx = st.seen ∧
      expectedFound cfg join venv st.seen (cands.get ⟨st.seen, h⟩)
        = some f := by
  rcases qualifies_true_cases hq with ⟨hd, hf, d, he, hver⟩
  rw [scanStep_lt cfg join venv cands st h,
    if_neg (by rw [hd]; exact Bool.false_ne_true),
    if_neg (by rw [hf]; exact Bool.false_ne_true)]
  simp only [he]
  by_cases hple : d.price ≤ cfg.verifyBelow
  · rw [if_pos hple, if_pos (hver hple)]
    refine ⟨_, _, rfl, rfl, ?_⟩
    simp only [expectedFound, he]
    rw [if_pos hple]
  · rw [if_neg hple]
    refine ⟨_, _, rfl, rfl, ?_⟩
    simp only [expectedFound, he]
    rw [if_neg hple]

lemma scanStep_finds (cfg : ScrollCfg) (join : String → String → String)
    (venv : VerifyEnv) (cands : List Block) :
    ∀ (st : ScanState) (i : Nat) (hi : i < cands.length),
      st.seen ≤ i →
      qualifies cfg join venv (cands.get ⟨i, hi⟩) = true →
      (∀ j (hj : j < cands.length), st.seen ≤ j → j < i →
        qualifies cfg join venv (cands.get ⟨j, hj⟩) = false) →
      ∃ sc f, scanStep cfg join venv cands st = Sum.inr (sc, f) ∧
        f.idx = i ∧
        expectedFound cfg join venv i (cands.get ⟨i, hi⟩) = some f := by
  suffices H : ∀ n (st : ScanState) (i : Nat) (hi : i < cands.length),
      i - st.seen ≤ n → st.seen ≤ i →
      qualifies cfg join venv (cands.get ⟨i, hi⟩) = true →
      (∀ j (hj : j < cands.length), st.seen ≤ j → j < i →
        qualifies cfg join venv (cands.get ⟨j, hj⟩) = false) →
      ∃ sc f, scanStep cfg join venv cands st = Sum.inr (sc, f) ∧
        f.idx = i ∧
        expectedFound cfg join venv i (cands.get ⟨i, hi⟩) = some f by
    exact fun st i hi hge hq hmin => H (i - st.seen) st i hi (le_refl _)
      hge hq hmin
  intro n
  induction n with
  | zero =>
    intro st i hi hn hge hq hmin
    obtain rfl : i = st.seen := by omega
    exact scanStep_accept cfg join venv cands st hi hq
  | succ m ih =>
    intro st i hi hn hge hq hmin
    by_cases heq : i = st.seen
    · subst heq
      exact scanStep_accept cfg join venv cands st hi hq
    · have hlt : st.seen < i := by omega
      have h : st.seen < cands.length := lt_trans hlt hi
      have hq0 := hmin st.seen h (le_refl _) hlt
      have hnext : ∀ (st' : ScanState), st'.seen = st.seen + 1 →
          (i - st'.seen ≤ m ∧ st'.seen ≤ i ∧
            ∀ j (hj : j < cands.length), st'.seen ≤ j → j < i →
              qualifies cfg join venv (cands.get ⟨j, hj⟩) = false) := by
        intro st' hs
        exact ⟨by omega, by omega, fun j hj hge' hjlt =>
          hmin j hj (by omega) hjlt⟩
      rw [scanStep_lt cfg join venv cands st h]
      by_cases hd : dispoSearch
          (((cands.get ⟨st.seen, h⟩).innerText).getD "").data = true
      · rw [if_pos hd]
        rcases hnext (dispoSkipState (cands.get ⟨st.seen, h⟩) st)
          (dispoSkipState_seen _ _) with ⟨hm, hge', hmin'⟩
        exact ih (dispoSkipState (cands.get ⟨st.seen, h⟩) st) i hi hm
          hge' hq hmin'
      · rw [if_neg hd]
        rw [Bool.not_eq_true] at hd
        by_cases hf : is_foiler_block (cands.get ⟨st.seen, h⟩) = true
        · rw [if_pos hf]
          rcases hnext (foilerSkipState (cands.get ⟨st.seen, h⟩) st)
            (foilerSkipState_seen _ _) with ⟨hm, hge', hmin'⟩
          exact ih (foilerSkipState (cands.get ⟨st.seen, h⟩) st) i hi hm
            hge' hq hmin'
        · rw [if_neg hf]
          rw [Bool.not_eq_true] at hf
          rcases he : extract_title_price_url join cfg.targetUrl
              (cands.get ⟨st.seen, h⟩) with _ | d
          · simp only [he]
            rcases hnext (extractState (cands.get ⟨st.seen, h⟩) st)
              (extractState_seen _ _) with ⟨hm, hge', hmin'⟩
            exact ih (extractState (cands.get ⟨st.seen, h⟩) st) i hi hm
              hge' hq hmin'
          · simp only [he]
            rcases qualifies_false_verify hd hf he hq0 with ⟨hple, hv⟩
            rw [if_pos hple, if_neg (by rw [hv]; exact Bool.false_ne_true)]
            rcases hnext (extractState (cands.get ⟨st.seen, h⟩) st)
              (extractState_seen _ _) with ⟨hm, hge', hmin'⟩
            exact ih (extractState (cands.get ⟨st.seen, h⟩) st) i hi hm
              hge' hq hmin'

lemma scanStep_found_inv (cfg : ScrollCfg) (join : String → String → String)
    (venv : VerifyEnv) (cands : List Block) :
    ∀ (st : ScanState) (sc : ScanState) (f : Found),
      scanStep cfg join venv cands st = Sum.inr (sc, f) →
      st.seen ≤ f.idx ∧ ∃ (hi : f.idx < cands.length),
        qualifies cfg join venv (cands.get ⟨f.idx, hi⟩) = true ∧
        expectedFound cfg join venv f.idx (cands.get ⟨f.idx, hi⟩)
          = some f := by
  suffices H : ∀ n (st : ScanState), cands.length - st.seen ≤ n →
      ∀ (sc : ScanState) (f : Found),
        scanStep cfg join venv cands st = Sum.inr (sc, f) →
        st.seen ≤ f.idx ∧ ∃ (hi : f.idx < cands.length),
          qualifies cfg join venv (cands.get ⟨f.idx, hi⟩) = true ∧
          expectedFound cfg join venv f.idx (cands.get ⟨f.idx, hi⟩)
            = some f by
    exact fun st sc f hres => H (cands.length - st.seen) st (le_refl _)
      sc f hres
  intro n
  induction n with
  | zero =>
    intro st hn sc f hres
    rw [scanStep_stop cfg join venv cands st (by omega)] at hres
    exact absurd hres (by simp)
  | succ m ih =>
    intro st hn sc f hres
    by_cases h : st.seen < cands.length
    · rw [scanStep_lt cfg join venv cands st h] at hres
      have hrec : ∀ (st' : ScanState), st'.seen = st.seen + 1 →
          scanStep cfg join venv cands st' = Sum.inr (sc, f) →
          st.seen ≤ f.idx ∧ ∃ (hi : f.idx < cands.length),
            qualifies cfg join venv (cands.get ⟨f.idx, hi⟩) = true ∧
            expectedFound cfg join venv f.idx (cands.get ⟨f.idx, hi⟩)
              = some f := by
        intro st' hs hres'
        rcases ih st' (by omega) sc f hres' with ⟨hge, hrest⟩
        exact ⟨by omega, hrest⟩
      by_cases hd : dispoSearch
          (((cands.get ⟨st.seen, h⟩).innerText).getD "").data = true
      · rw [if_pos hd] at hres
        exact hrec _ (dispoSkipState_seen _ _) hres
      · rw [if_neg hd] at hres
        rw [Bool.not_eq_true] at hd
        by_cases hf : is_foiler_block (cands.get ⟨st.seen, h⟩) = true
        · rw [if_pos hf] at hres
          exact hrec _ (foilerSkipState_seen _ _) hres
        · rw [if_neg hf] at hres
          rw [Bool.not_eq_true] at hf
          rcases he : extract_title_price_url join cfg.targetUrl
              (cands.get ⟨st.seen, h⟩) with _ | d
          · simp only [he] at hres
            exact hrec _ (extractState_seen _ _) hres
          · simp only [he] at hres
            by_cases hple : d.price ≤ cfg.verifyBelow
            · rw [if_pos hple] at hres
              by_cases hv : verify_not_foiler_by_detail join venv
                  (resolve_to_card_detail join venv.resolveFetch
                    d.detail_url) = true
              · rw [if_pos hv] at hres
                simp only [Sum.inr.injEq, Prod.mk.injEq] at hres
                obtain ⟨rfl, rfl⟩ := hres
                refine ⟨le_refl _, h, ?_, ?_⟩
                · unfold qualifies
                  rw [hd, hf]
                  simp only [he, Bool.not_false, Bool.true_and]
                  rw [if_pos hple]
                  exact hv
                · simp only [expectedFound, he]
                  rw [if_pos hple]
              · rw [if_neg hv] at hres
                exact hrec _ (extractState_seen _ _) hres
            · rw [if_neg hple] at hres
              simp only [Sum.inr.injEq, Prod.mk.injEq] at hres
              obtain ⟨rfl, rfl⟩ := hres
              refine ⟨le_refl _, h, ?_, ?_⟩
              · unfold qualifies
                rw [hd, hf]
                simp only [he, Bool.not_false, Bool.true_and]
                rw [if_neg hple]
              · simp only [expectedFound, he]
                rw [if_neg hple]
    · rw [scanStep_stop cfg join venv cands st h] at hres
      exact absurd hres (by simp)

/-! ### Trace lemmas: which candidates were classified / extracted -/

lemma firstSeenDiag_extracted (item : Block) (st : ScanState) :
    (firstSeenDiag item st).extracted = st.extracted := by
  unfold firstSeenDiag
  split_ifs <;> rfl

lemma firstSeenDiag_classified_cases (item : Block) (st : ScanState) :
    (firstSeenDiag item st).classified = st.classified ∨
      (firstSeenDiag item st).classified = st.classified ++ [st.seen] := by
  unfold firstSeenDiag
  split_ifs <;> simp

lemma firstSeenDiag_classified_of_dispo {item : Block} (st : ScanState)
    (hd : dispoSearch ((item.innerText).getD "").data = true) :
    (firstSeenDiag item st).classified = st.classified := by
  unfold firstSeenDiag
  by_cases h1 : st.firstSeen = true
  · rw [if_pos h1, if_pos hd]
  · rw [if_neg h1]

lemma foilerSkipState_classified (item : Block) (st : ScanState) :
    (foilerSkipState item st).classified
      = (firstSeenDiag item st).classified ++ [st.seen] := by
  simp only [foilerSkipState, classifyState]
  split_ifs <;> rfl

lemma foilerSkipState_extracted (item : Block) (st : ScanState) :
    (foilerSkipState item st).extracted = st.extracted := by
  simp only [foilerSkipState, classifyState]
  split_ifs <;> exact firstSeenDiag_extracted item st

lemma extractState_classified (item : Block) (st : ScanState) :
    (extractState item st).classified
      = (firstSeenDiag item st).classified ++ [st.seen] := rfl

lemma extractState_extracted (item : Block) (st : ScanState) :
    (extractState item st).extracted = st.extracted ++ [st.seen] := by
  have h : (extractState item st).extracted
      = (firstSeenDiag item st).extracted ++ [st.seen] := rfl
  rw [h, firstSeenDiag_extracted]

lemma not_mem_append_single {i a : Nat} {xs : List Nat} (h : i ∉ xs)
    (hne : a ≠ i) : i ∉ xs ++ [a] := by
  simp only [List.mem_append, List.mem_singleton]
  rintro (hx | rfl)
  · exact h hx
  · exact hne rfl

/-- The scan state carried out of the scan, found or not. -/
def outScan : (ScanState ⊕ (ScanState × Found)) → ScanState
  | Sum.inl sc => sc
  | Sum.inr (sc, _) => sc

lemma scanStep_dispo_untouched (cfg : ScrollCfg)
    (join : String → String → String) (venv : VerifyEnv)
    (cands : List Block) (i : Nat)
    (hdi : ∀ (hi : i < cands.length),
      dispoSearch (((cands.get ⟨i, hi⟩).innerText).getD "").data = true) :
    ∀ st : ScanState, i ∉ st.classified → i ∉ st.extracted →
      (i ∉ (outScan (scanStep cfg join venv cands st)).classified ∧
        i ∉ (outScan (scanStep cfg join venv cands st)).extracted) ∧
      ∀ sc f, scanStep cfg join venv cands st = Sum.inr (sc, f) →
        f.idx ≠ i := by
  suffices H : ∀ n (st : ScanState), cands.length - st.seen ≤ n →
      i ∉ st.classified → i ∉ st.extracted →
      (i ∉ (outScan (scanStep cfg join venv cands st)).classified ∧
        i ∉ (outScan (scanStep cfg join venv cands st)).extracted) ∧
      ∀ sc f, scanStep cfg join venv cands st = Sum.inr (sc, f) →
        f.idx ≠ i by
    exact fun st hc he => H (cands.length - st.seen) st (le_refl _) hc he
  intro n
  induction n with
  | zero =>
    intro st hn hc he
    rw [scanStep_stop cfg join venv cands st (by omega)]
    exact ⟨⟨hc, he⟩, fun sc f hres => absurd hres (by simp)⟩
  | succ m ih =>
    intro st hn hc he
    by_cases h : st.seen < cands.length
    · rw [scanStep_lt cfg join venv cands st h]
      by_cases heq : st.seen = i
      · -- the offer-line candidate itself: the scan skips it untouched
        subst heq
        have hd := hdi h
        rw [if_pos hd]
        have hcl : (dispoSkipState (cands.get ⟨st.seen, h⟩) st).classified
            = st.classified := firstSeenDiag_classified_of_dispo st hd
        have hex : (dispoSkipState (cands.get ⟨st.seen, h⟩) st).extracted
            = st.extracted := firstSeenDiag_extracted _ st
        exact ih (dispoSkipState (cands.get ⟨st.seen, h⟩) st)
          (by rw [dispoSkipState_seen]; omega)
          (by rw [hcl]; exact hc) (by rw [hex]; exact he)
      · -- another candidate: only its own index is recorded
        have hne : st.seen ≠ i := heq
        have hfsc : i ∉ (firstSeenDiag (cands.get ⟨st.seen, h⟩) st).classified := by
          rcases firstSeenDiag_classified_cases (cands.get ⟨st.seen, h⟩) st
            with hcase | hcase
          · rw [hcase]; exact hc
          · rw [hcase]; exact not_mem_append_single hc hne
        have hfse : i ∉ (firstSeenDiag (cands.get ⟨st.seen, h⟩) st).extracted := by
          rw [firstSeenDiag_extracted]; exact he
        by_cases hd : dispoSearch
            (((cands.get ⟨st.seen, h⟩).innerText).getD "").data = true
        · rw [if_pos hd]
          exact ih (dispoSkipState (cands.get ⟨st.seen, h⟩) st)
            (by rw [dispoSkipState_seen]; omega) hfsc hfse
        · rw [if_neg hd]
          have hclC : i ∉ (firstSeenDiag (cands.get ⟨st.seen, h⟩) st).classified
              ++ [st.seen] := not_mem_append_single hfsc hne
          by_cases hf : is_foiler_block (cands.get ⟨st.seen, h⟩) = true
          · rw [if_pos hf]
            exact ih (foilerSkipState (cands.get ⟨st.seen, h⟩) st)
              (by rw [foilerSkipState_seen]; omega)
              (by rw [foilerSkipState_classified]; exact hclC)
              (by rw [foilerSkipState_extracted]; exact he)
          · rw [if_neg hf]
            have hexE : i ∉ st.extracted ++ [st.seen] :=
              not_mem_append_single he hne
            rcases hee : extract_title_price_url join cfg.targetUrl
                (cands.get ⟨st.seen, h⟩) with _ | d
            · simp only [hee]
              exact ih (extractState (cands.get ⟨st.seen, h⟩) st)
                (by rw [extractState_seen]; omega)
                (by rw [extractState_classified]; exact hclC)
                (by rw [extractState_extracted]; exact hexE)
            · simp only [hee]
              by_cases hple : d.price ≤ cfg.verifyBelow
              · rw [if_pos hple]
                by_cases hv : verify_not_foiler_by_detail join venv
                    (resolve_to_card_detail join venv.resolveFetch
                      d.detail_url) = true
                · rw [if_pos hv]
                  refine ⟨⟨?_, ?_⟩, ?_⟩
                  · simp only [outScan]
                    rw [extractState_classified]
                    exact hclC
                  · simp only [outScan]
                    rw [extractState_extracted]
                    exact hexE
                  · intro sc f hres
                    simp only [Sum.inr.injEq, Prod.mk.injEq] at hres
                    obtain ⟨-, rfl⟩ := hres
                    exact hne
                · rw [if_neg hv]
                  exact ih (extractState (cands.get ⟨st.seen, h⟩) st)
                    (by rw [extractState_seen]; omega)
                    (by rw [extractState_classified]; exact hclC)
                    (by rw [extractState_extracted]; exact hexE)
              · rw [if_neg hple]
                refine ⟨⟨?_, ?_⟩, ?_⟩
                · simp only [outScan]
                  rw [extractState_classified]
                  exact hclC
                · simp only [outScan]
                  rw [extractState_extracted]
                  exact hexE
                · intro sc f hres
                  simp only [Sum.inr.injEq, Prod.mk.injEq] at hres
                  obtain ⟨-, rfl⟩ := hres
                  exact hne
    · rw [scanStep_stop cfg join venv cands st h]
      exact ⟨⟨hc, he⟩, fun sc f hres => absurd hres (by simp)⟩

/-! ### Lemmas about the outer loop -/

lemma loopAdvance_scan (env : Nat → PageState) (st : LoopState)
    (sc : ScanState) : (loopAdvance env st sc).scan = sc := rfl

lemma loopAdvance_steps (env : Nat → PageState) (st : LoopState)
    (sc : ScanState) : (loopAdvance env st sc).steps = st.steps + 1 := rfl

lemma loopAdvance_scrolls (env : Nat → PageState) (st : LoopState)
    (sc : ScanState) : (loopAdvance env st sc).scrolls = st.scrolls + 1 := rfl

lemma loopAdvance_prevHeight (env : Nat → PageState) (st : LoopState)
    (sc : ScanState) :
    (loopAdvance env st sc).prevHeight = (env st.scrolls).height := rfl

lemma scrollLoop_found (cfg : ScrollCfg) (join : String → String → String)
    (venv : VerifyEnv) (env : Nat → PageState) (st : LoopState)
    (sc : ScanState) (f : Found)
    (hscan : scanStep cfg join venv (env st.scrolls).cands st.scan
      = Sum.inr (sc, f)) :
    scrollLoop cfg join venv env st
      = (Outcome.found f, { st with scan := sc }) := by
  rw [scrollLoop]
  simp only [hscan]

lemma scrollLoop_inl (cfg : ScrollCfg) (join : String → String → String)
    (venv : VerifyEnv) (env : Nat → PageState) (st : LoopState)
    (sc : ScanState)
    (hscan : scanStep cfg join venv (env st.scrolls).cands st.scan
      = Sum.inl sc) :
    scrollLoop cfg join venv env st
      = (if cfg.maxSteps ≤ st.steps then
          (Outcome.stopMax, { st with scan := sc })
        else if stopCond cfg (loopAdvance env st sc) then
          (Outcome.stopNoGrowth, loopAdvance env st sc)
        else scrollLoop cfg join venv env (loopAdvance env st sc)) := by
  rw [scrollLoop]
  simp only [hscan]

lemma stopCond_false_iff (cfg : ScrollCfg) (st : LoopState) :
    stopCond cfg st = false ↔
      (st.noGrowth < cfg.noGrowthRetries ∨
        st.noHeight < cfg.noHeightRetries) := by
  simp only [stopCond, Bool.and_eq_false_iff, decide_eq_false_iff_not,
    Nat.not_le]

lemma stopCond_true_iff (cfg : ScrollCfg) (st : LoopState) :
    stopCond cfg st = true ↔
      (cfg.noGrowthRetries ≤ st.noGrowth ∧
        cfg.noHeightRetries ≤ st.noHeight) := by
  simp only [stopCond, Bool.and_eq_true, decide_eq_true_eq]

/-- Claim C3, part: pure candidate-count stalling while the height still
grows never stops the loop — a height increase resets the no-height counter
to zero, so the stop test fails whenever its threshold is positive. -/
lemma stopCond_false_of_height_growth (cfg : ScrollCfg)
    (env : Nat → PageState) (st : LoopState) (sc : ScanState)
    (hpos : 0 < cfg.noHeightRetries)
    (hgrow : st.prevHeight < (env (st.scrolls + 1)).height) :
    stopCond cfg (loopAdvance env st sc) = false := by
  rw [stopCond_false_iff]
  refine Or.inr ?_
  have hg : decide (st.prevHeight < (env (st.scrolls + 1)).height)
      = true := by simp [hgrow]
  have hh : (loopAdvance env st sc).noHeight = 0 := by
    simp only [loopAdvance, hg]
    rfl
  rw [hh]
  exact hpos

lemma scrollLoop_exit_shape (cfg : ScrollCfg)
    (join : String → String → String) (venv : VerifyEnv)
    (env : Nat → PageState) :
    ∀ st : LoopState,
      ((scrollLoop cfg join venv env st).1 = Outcome.stopMax →
        cfg.maxSteps ≤ (scrollLoop cfg join venv env st).2.steps) ∧
      ((scrollLoop cfg join venv env st).1 = Outcome.stopNoGrowth →
        cfg.noGrowthRetries
            ≤ (scrollLoop cfg join venv env st).2.noGrowth ∧
          cfg.noHeightRetries
            ≤ (scrollLoop cfg join venv env st).2.noHeight) := by
  suffices H : ∀ n (st : LoopState), cfg.maxSteps + 1 - st.steps ≤ n →
      ((scrollLoop cfg join venv env st).1 = Outcome.stopMax →
        cfg.maxSteps ≤ (scrollLoop cfg join venv env st).2.steps) ∧
      ((scrollLoop cfg join venv env st).1 = Outcome.stopNoGrowth →
        cfg.noGrowthRetries
            ≤ (scrollLoop cfg join venv env st).2.noGrowth ∧
          cfg.noHeightRetries
            ≤ (scrollLoop cfg join venv env st).2.noHeight) by
    exact fun st => H (cfg.maxSteps + 1 - st.steps) st (le_refl _)
  intro n
  induction n with
  | zero =>
    intro st hn
    rcases hscan : scanStep cfg join venv (env st.scrolls).cands st.scan
        with sc | ⟨sc, f⟩
    · rw [scrollLoop_inl cfg join venv env st sc hscan,
        if_pos (by omega : cfg.maxSteps ≤ st.steps)]
      exact ⟨fun _ => by show cfg.maxSteps ≤ st.steps; omega,
        fun hcon => absurd hcon (by simp)⟩
    · rw [scrollLoop_found cfg join venv env st sc f hscan]
      exact ⟨fun hcon => absurd hcon (by simp),
        fun hcon => absurd hcon (by simp)⟩
  | succ m ih =>
    intro st hn
    rcases hscan : scanStep cfg join venv (env st.scrolls).cands st.scan
        with sc | ⟨sc, f⟩
    · rw [scrollLoop_inl cfg join venv env st sc hscan]
      by_cases hmax : cfg.maxSteps ≤ st.steps
      · rw [if_pos hmax]
        exact ⟨fun _ => hmax, fun hcon => absurd hcon (by simp)⟩
      · rw [if_neg hmax]
        by_cases hstop : stopCond cfg (loopAdvance env st sc) = true
        · rw [if_pos hstop]
          rcases (stopCond_true_iff cfg _).1 hstop with ⟨h1, h2⟩
          exact ⟨fun hcon => absurd hcon (by simp), fun _ => ⟨h1, h2⟩⟩
        · rw [if_neg hstop]
          exact ih (loopAdvance env st sc)
            (by rw [loopAdvance_steps]; omega)
    · rw [scrollLoop_found cfg join venv env st sc f hscan]
      exact ⟨fun hcon => absurd hcon (by simp),
        fun hcon => absurd hcon (by simp)⟩

lemma env_pref_of_stab {env : Nat → PageState} {K : Nat}
    (hK : ∀ n, K ≤ n → env n = env K)
    (hmono : ∀ n, ∃ t, (env n).cands ++ t = (env (n + 1)).cands) :
    ∀ n, ∃ t, (env n).cands ++ t = (env K).cands := by
  suffices H : ∀ m n, n + m = K →
      ∃ t, (env n).cands ++ t = (env K).cands by
    intro n
    by_cases hn : K ≤ n
    · exact ⟨[], by rw [hK n hn, List.append_nil]⟩
    · exact H (K - n) n (by omega)
  intro m
  induction m with
  | zero =>
    intro n hnK
    exact ⟨[], by rw [show n = K by omega, List.append_nil]⟩
  | succ m2 ih =>
    intro n hnK
    rcases hmono n with ⟨t1, ht1⟩
    rcases ih (n + 1) (by omega) with ⟨t2, ht2⟩
    exact ⟨t1 ++ t2, by rw [← List.append_assoc, ht1, ht2]⟩

lemma get_of_pref {a b : List Block} {i : Nat} (hi : i < a.length)
    (h : ∃ t, a ++ t = b) :
    ∃ (hib : i < b.length), a.get ⟨i, hi⟩ = b.get ⟨i, hib⟩ := by
  rcases h with ⟨t, rfl⟩
  refine ⟨by rw [List.length_append]; omega, ?_⟩
  simp only [List.get_eq_getElem]
  rw [List.getElem_append_left hi]

lemma no_qualify_of_env (cfg : ScrollCfg)
    (join : String → String → String) (venv : VerifyEnv)
    {env : Nat → PageState} {K : Nat}
    (hpref : ∀ n, ∃ t, (env n).cands ++ t = (env K).cands)
    (hnoq : ∀ i (hi : i < (env K).cands.length),
      qualifies cfg join venv ((env K).cands.get ⟨i, hi⟩) = false) :
    ∀ n i (hi : i < (env n).cands.length),
      qualifies cfg join venv ((env n).cands.get ⟨i, hi⟩) = false := by
  intro n i hi
  rcases get_of_pref hi (hpref n) with ⟨hib, hget⟩
  rw [hget]
  exact hnoq i hib

lemma scrollLoop_stab (cfg : ScrollCfg)
    (join : String → String → String) (venv : VerifyEnv)
    (env : Nat → PageState) (K : Nat)
    (hK : ∀ n, K ≤ n → env n = env K)
    (hpref : ∀ n, ∃ t, (env n).cands ++ t = (env K).cands)
    (hnoqAll : ∀ n i (hi : i < (env n).cands.length),
      qualifies cfg join venv ((env n).cands.get ⟨i, hi⟩) = false)
    (hNG : 0 < cfg.noGrowthRetries) (hNH : 0 < cfg.noHeightRetries) :
    ∀ st : LoopState,
      st.steps + 1 = st.scrolls →
      st.prevHeight = (env (st.scrolls - 1)).height →
      st.lastTotal ≤ (env K).cands.length →
      (K + 1 ≤ st.scrolls → st.lastTotal = (env K).cands.length) →
      st.scrolls - 1 - K ≤ st.noGrowth →
      st.scrolls - 1 - K ≤ st.noHeight →
      stopCond cfg st = false →
      (∀ f, (scrollLoop cfg join venv env st).1 ≠ Outcome.found f) ∧
        (scrollLoop cfg join venv env st).2.steps
          ≤ K + max cfg.noGrowthRetries cfg.noHeightRetries := by
  have hmax1 : cfg.noGrowthRetries
      ≤ max cfg.noGrowthRetries cfg.noHeightRetries := le_max_left _ _
  have hmax2 : cfg.noHeightRetries
      ≤ max cfg.noGrowthRetries cfg.noHeightRetries := le_max_right _ _
  suffices H : ∀ n (st : LoopState), cfg.maxSteps + 1 - st.steps ≤ n →
      st.steps + 1 = st.scrolls →
      st.prevHeight = (env (st.scrolls - 1)).height →
      st.lastTotal ≤ (env K).cands.length →
      (K + 1 ≤ st.scrolls → st.lastTotal = (env K).cands.length) →
      st.scrolls - 1 - K ≤ st.noGrowth →
      st.scrolls - 1 - K ≤ st.noHeight →
      stopCond cfg st = false →
      (∀ f, (scrollLoop cfg join venv env st).1 ≠ Outcome.found f) ∧
        (scrollLoop cfg join venv env st).2.steps
          ≤ K + max cfg.noGrowthRetries cfg.noHeightRetries by
    exact fun st => H (cfg.maxSteps + 1 - st.steps) st (le_refl _)
  intro n
  induction n with
  | zero =>
    intro st hn h1 _h2 _h3 _h4 h5 h6 h7
    rcases scanStep_no_qualify cfg join venv (env st.scrolls).cands st.scan
        (fun i hi _ => hnoqAll st.scrolls i hi) with ⟨sc, hscan⟩
    rw [scrollLoop_inl cfg join venv env st sc hscan,
      if_pos (by omega : cfg.maxSteps ≤ st.steps)]
    refine ⟨fun f hcon => absurd hcon (by simp), ?_⟩
    show st.steps ≤ K + max cfg.noGrowthRetries cfg.noHeightRetries
    rcases (stopCond_false_iff cfg st).1 h7 with hlt | hlt <;> omega
  | succ m ih =>
    intro st hn h1 h2 h3 h4 h5 h6 h7
    rcases scanStep_no_qualify cfg join venv (env st.scrolls).cands st.scan
        (fun i hi _ => hnoqAll st.scrolls i hi) with ⟨sc, hscan⟩
    rw [scrollLoop_inl cfg join venv env st sc hscan]
    by_cases hmax : cfg.maxSteps ≤ st.steps
    · rw [if_pos hmax]
      refine ⟨fun f hcon => absurd hcon (by simp), ?_⟩
      show st.steps ≤ K + max cfg.noGrowthRetries cfg.noHeightRetries
      rcases (stopCond_false_iff cfg st).1 h7 with hlt | hlt <;> omega
    · rw [if_neg hmax]
      have h1' : (loopAdvance env st sc).steps + 1
          = (loopAdvance env st sc).scrolls := by
        rw [loopAdvance_steps, loopAdvance_scrolls]; omega
      have h2' : (loopAdvance env st sc).prevHeight
          = (env ((loopAdvance env st sc).scrolls - 1)).height := by
        rw [loopAdvance_prevHeight, loopAdvance_scrolls,
          Nat.add_sub_cancel]
      have hlen : ((env (st.scrolls + 1)).cands).length
          ≤ (env K).cands.length := by
        rcases hpref (st.scrolls + 1) with ⟨t, ht⟩
        have := congrArg List.length ht
        rw [List.length_append] at this
        omega
      have h3' : (loopAdvance env st sc).lastTotal
          ≤ (env K).cands.length := by
        show (if decide (st.lastTotal
            < (env (st.scrolls + 1)).cands.length) = true then
              (env (st.scrolls + 1)).cands.length else st.lastTotal)
          ≤ (env K).cands.length
        by_cases hg : st.lastTotal < (env (st.scrolls + 1)).cands.length
        · rw [if_pos (by simp [hg])]; exact hlen
        · rw [if_neg (by simp [hg])]; exact h3
      have h4' : K + 1 ≤ (loopAdvance env st sc).scrolls →
          (loopAdvance env st sc).lastTotal = (env K).cands.length := by
        rw [loopAdvance_scrolls]
        intro hKs
        have henv : env (st.scrolls + 1) = env K := hK _ (by omega)
        show (if decide (st.lastTotal
            < (env (st.scrolls + 1)).cands.length) = true then
              (env (st.scrolls + 1)).cands.length else st.lastTotal)
          = (env K).cands.length
        by_cases hg : st.lastTotal < (env (st.scrolls + 1)).cands.length
        · rw [if_pos (by simp [hg]), henv]
        · rw [if_neg (by simp [hg])]
          rw [henv] at hg
          omega
      have h5' : (loopAdvance env st sc).scrolls - 1 - K
          ≤ (loopAdvance env st sc).noGrowth := by
        rw [loopAdvance_scrolls]
        by_cases hKs : K + 1 ≤ st.scrolls
        · have henv : env (st.scrolls + 1) = env K := hK _ (by omega)
          have hlt : st.lastTotal = (env K).cands.length := h4 hKs
          have hg : ¬ st.lastTotal < (env (st.scrolls + 1)).cands.length := by
            rw [henv, hlt]; omega
          show st.scrolls + 1 - 1 - K
            ≤ (if decide (st.lastTotal
                < (env (st.scrolls + 1)).cands.length) = true then 0
              else st.noGrowth + 1)
          rw [if_neg (by simp [hg])]
          omega
        · have : st.scrolls + 1 - 1 - K = 0 := by omega
          rw [this]
          exact Nat.zero_le _
      have h6' : (loopAdvance env st sc).scrolls - 1 - K
          ≤ (loopAdvance env st sc).noHeight := by
        rw [loopAdvance_scrolls]
        by_cases hKs : K + 1 ≤ st.scrolls
        · have henv1 : env (st.scrolls + 1) = env K := hK _ (by omega)
          have henv0 : env (st.scrolls - 1) = env K := hK _ (by omega)
          have hg : ¬ st.prevHeight < (env (st.scrolls + 1)).height := by
            rw [h2, henv1, henv0]; omega
          show st.scrolls + 1 - 1 - K
            ≤ (if decide (st.prevHeight
                < (env (st.scrolls + 1)).height) = true then 0
              else st.noHeight + 1)
          rw [if_neg (by simp [hg])]
          omega
        · have : st.scrolls + 1 - 1 - K = 0 := by omega
          rw [this]
          exact Nat.zero_le _
      by_cases hstop : stopCond cfg (loopAdvance env st sc) = true
      · rw [if_pos hstop]
        refine ⟨fun f hcon => absurd hcon (by simp), ?_⟩
        show (loopAdvance env st sc).steps
          ≤ K + max cfg.noGrowthRetries cfg.noHeightRetries
        rw [loopAdvance_steps]
        rcases (stopCond_false_iff cfg st).1 h7 with hlt | hlt
        · have hb : st.scrolls - 1 - K ≤ st.noGrowth := h5
          omega
        · have hb : st.scrolls - 1 - K ≤ st.noHeight := h6
          omega
      · rw [if_neg hstop]
        exact ih (loopAdvance env st sc)
          (by rw [loopAdvance_steps]; omega)
          h1' h2' h3' h4' h5' h6'
          (by rw [Bool.not_eq_true] at hstop; exact hstop)

lemma scrollLoop_dispo_untouched (cfg : ScrollCfg)
    (join : String → String → String) (venv : VerifyEnv)
    (env : Nat → PageState) (c : Block) (i : Nat)
    (hic : ∀ n (hi : i < (env n).cands.length),
      (env n).cands.get ⟨i, hi⟩ = c)
    (hdc : dispoSearch ((c.innerText).getD "").data = true) :
    ∀ st : LoopState, i ∉ st.scan.classified → i ∉ st.scan.extracted →
      (i ∉ (scrollLoop cfg join venv env st).2.scan.classified ∧
        i ∉ (scrollLoop cfg join venv env st).2.scan.extracted) ∧
      ∀ f, (scrollLoop cfg join venv env st).1 = Outcome.found f →
        f.idx ≠ i := by
  suffices H : ∀ n (st : LoopState), cfg.maxSteps + 1 - st.steps ≤ n →
      i ∉ st.scan.classified → i ∉ st.scan.extracted →
      (i ∉ (scrollLoop cfg join venv env st).2.scan.classified ∧
        i ∉ (scrollLoop cfg join venv env st).2.scan.extracted) ∧
      ∀ f, (scrollLoop cfg join venv env st).1 = Outcome.found f →
        f.idx ≠ i by
    exact fun st hc he => H (cfg.maxSteps + 1 - st.steps) st (le_refl _) hc he
  intro n
  induction n with
  | zero =>
    intro st hn hc he
    have hstep := scanStep_dispo_untouched cfg join venv
      (env st.scrolls).cands i
      (fun hi => by rw [hic st.scrolls hi]; exact hdc)
      st.scan hc he
    rcases hscan : scanStep cfg join venv (env st.scrolls).cands st.scan
        with sc | ⟨sc, f⟩
    · rw [hscan] at hstep
      rw [scrollLoop_inl cfg join venv env st sc hscan,
        if_pos (by omega : cfg.maxSteps ≤ st.steps)]
      exact ⟨hstep.1, fun f hcon => absurd hcon (by simp)⟩
    · rw [hscan] at hstep
      rw [scrollLoop_found cfg join venv env st sc f hscan]
      refine ⟨hstep.1, fun f2 hf2 => ?_⟩
      have : Outcome.found f = Outcome.found f2 := hf2
      simp only [Outcome.found.injEq] at this
      exact this ▸ hstep.2 sc f rfl
  | succ m ih =>
    intro st hn hc he
    have hstep := scanStep_dispo_untouched cfg join venv
      (env st.scrolls).cands i
      (fun hi => by rw [hic st.scrolls hi]; exact hdc)
      st.scan hc he
    rcases hscan : scanStep cfg join venv (env st.scrolls).cands st.scan
        with sc | ⟨sc, f⟩
    · rw [hscan] at hstep
      rw [scrollLoop_inl cfg join venv env st sc hscan]
      by_cases hmax : cfg.maxSteps ≤ st.steps
      · rw [if_pos hmax]
        exact ⟨hstep.1, fun f hcon => absurd hcon (by simp)⟩
      · rw [if_neg hmax]
        by_cases hstop : stopCond cfg (loopAdvance env st sc) = true
        · rw [if_pos hstop]
          exact ⟨hstep.1, fun f hcon => absurd hcon (by simp)⟩
        · rw [if_neg hstop]
          exact ih (loopAdvance env st sc)
            (by rw [loopAdvance_steps]; omega) hstep.1.1 hstep.1.2
    · rw [hscan] at hstep
      rw [scrollLoop_found cfg join venv env st sc f hscan]
      refine ⟨hstep.1, fun f2 hf2 => ?_⟩
      have : Outcome.found f = Outcome.found f2 := hf2
      simp only [Outcome.found.injEq] at this
      exact this ▸ hstep.2 sc f rfl

/-! ## The best-price ratchet and the notifier
(`send_ifttt` lines 65–77, main-loop comparison lines 474–487)

The state is `best_seen_price` / `best_seen_title`; `none` models the
initial `math.inf` ("no price seen yet").  The outbound POST is an external
collaborator: its outcome is a parameter, consumed only by logging. -/

/-- The epsilon of the ratchet comparison, `1e-9` in the source. -/
def EPS : ℚ := 1 / 1000000000

/-- Process-wide best-seen state (`best_seen_price`, `best_seen_title`). -/
structure BestState where
  best : Option ℚ
  title : Option String
deriving DecidableEq

/-- The new-low condition of line 480:
`(best_seen_price is math.inf) or (price < best_seen_price - 1e-9)`. -/
def ratchetFires (best : Option ℚ) (price : ℚ) : Bool :=
  match best with
  | none => true
  | some b => decide (price < b - EPS)

/-- The effect of one comparison on the recorded best price (lines 480–484). -/
def ratchetUpd (best : Option ℚ) (price : ℚ) : Option ℚ :=
  if ratchetFires best price then some price else best

/-- The recorded best price after a sequence of observed cycle prices. -/
def runRatchet (b0 : Option ℚ) (l : List ℚ) : Option ℚ :=
  l.foldl ratchetUpd b0

/-- Outcome of the outbound HTTP POST: a response with a status code and
body, or a transport error (the `except Exception` branch of `send_ifttt`). -/
inductive NotifyOutcome where
  | response (status : Nat) (body : String)
  | transportError
deriving DecidableEq

/-- The outbound request `send_ifttt` issues (lines 70–74). -/
structure NotifyRequest where
  event : String
  key : String
  title : String
  price : ℚ
  link : String
deriving DecidableEq

/-- `send_ifttt` (lines 65–77): with an empty key it logs a warning and
returns without any outbound request; otherwise it issues the POST — the
`outcome` (any status code, any body, or a transport error) is only logged,
never raised and never returned.  The model returns the request issued, if
any. -/
def send_ifttt (key event title : String) (price : ℚ) (link : String)
    (outcome : NotifyOutcome) : Option NotifyRequest :=
  if key = "" then none
  else
    -- the POST is issued before the outcome is known; both the response
    -- branch and the exception branch fall through to the caller
    match outcome with
    | NotifyOutcome.response _ _ =>
      some { event := event, key := key, title := title,
             price := price, link := link }
    | NotifyOutcome.transportError =>
      some { event := event, key := key, title := title,
             price := price, link := link }

/-- An item found by one discovery cycle (`card` in `main`). -/
structure FoundItem where
  title : String
  price : ℚ
  url : String
deriving DecidableEq

/-- Everything one ratchet/notify step produces. -/
structure CycleResult where
  state : BestState
  alerted : Bool
  request : Option NotifyRequest
  saved : Bool
deriving DecidableEq

/-- One iteration of the comparison part of the main loop (lines 474–487):
no card → nothing happens; otherwise on a new low the notifier is invoked,
then the best-seen state is updated and the checkpoint written; else only a
log line is emitted. -/
def mainCycle (key event : String) (st : BestState) (card : Option FoundItem)
    (outcome : NotifyOutcome) : CycleResult :=
  match card with
  | none => { state := st, alerted := false, request := none, saved := false }
  | some c =>
    if ratchetFires st.best c.price then
      { state := { best := some c.price, title := some c.title }
        alerted := true
        request := send_ifttt key event
          (if c.title = "" then "Carte unique" else c.title) c.price c.url
          outcome
        saved := true }
    else { state := st, alerted := false, request := none, saved := false }

/-! ### Lemmas about the ratchet -/

lemma EPS_pos : (0 : ℚ) < EPS := by norm_num [EPS]

lemma ratchetUpd_some_fired {b p : ℚ} (h : p < b - EPS) :
    ratchetUpd (some b) p = some p := by
  rw [ratchetUpd, if_pos]
  simpa [ratchetFires] using h

lemma ratchetUpd_some_not_fired {b p : ℚ} (h : ¬(p < b - EPS)) :
    ratchetUpd (some b) p = some b := by
  rw [ratchetUpd, if_neg]
  simpa [ratchetFires] using h

/-- Invariant bundle for the fold: from a seen price `b0`, the final best is
defined, is `b0` or an observed price, never exceeds `b0`, and is within
`EPS` below every observed price. -/
lemma runRatchet_some (l : List ℚ) (b0 : ℚ) :
    ∃ v, runRatchet (some b0) l = some v ∧ (v = b0 ∨ v ∈ l) ∧ v ≤ b0 ∧
      ∀ p ∈ l, v ≤ p + EPS := by
  induction l generalizing b0 with
  | nil => exact ⟨b0, rfl, Or.inl rfl, le_refl _, by simp⟩
  | cons p t ih =>
    by_cases hf : p < b0 - EPS
    · rcases ih p with ⟨v, hv, hmem, hle, hall⟩
      refine ⟨v, ?_, ?_, ?_, ?_⟩
      · rw [runRatchet, List.foldl_cons, ratchetUpd_some_fired hf]
        exact hv
      · rcases hmem with rfl | hm
        · exact Or.inr (List.mem_cons_self _ _)
        · exact Or.inr (List.mem_cons_of_mem _ hm)
      · have hpb : p ≤ b0 := by
          have := EPS_pos
          linarith
        exact hle.trans hpb
      · intro q hq
        rcases List.mem_cons.1 hq with rfl | hqm
        · have := EPS_pos
          linarith [hle]
        · exact hall q hqm
    · rcases ih b0 with ⟨v, hv, hmem, hle, hall⟩
      refine ⟨v, ?_, ?_, hle, ?_⟩
      · rw [runRatchet, List.foldl_cons, ratchetUpd_some_not_fired hf]
        exact hv
      · rcases hmem with rfl | hm
        · exact Or.inl rfl
        · exact Or.inr (List.mem_cons_of_mem _ hm)
      · intro q hq
        rcases List.mem_cons.1 hq with rfl | hqm
        · have hqe : b0 - EPS ≤ q := le_of_not_lt hf
          linarith [hle]
        · exact hall q hqm

/-- Claim C1: the notification fires and the best-price record updates
exactly when no price has been seen or the candidate is below the best by
more than epsilon (never on a merely equal or within-epsilon price); the
recorded best never increases; after a sequence of observations it equals
the minimum observed up to the epsilon tolerance (it is an observed price
and is at most every observation plus epsilon); and on the spec scenario
0.50, 0.50, 0.45, 0.46 the notifier fires exactly at the first and third
observation, ending at 0.45. -/
theorem C1_ratchet_minimum :
    (∀ (best : Option ℚ) (p : ℚ),
      ratchetFires best p = true ↔
        best = none ∨ ∃ b, best = some b ∧ p < b - EPS) ∧
    (∀ (key event : String) (st : BestState) (c : FoundItem)
        (o : NotifyOutcome),
      (mainCycle key event st (some c) o).state.best
          = ratchetUpd st.best c.price ∧
        (mainCycle key event st (some c) o).alerted
          = ratchetFires st.best c.price) ∧
    (∀ (l : List ℚ) (b0 v : ℚ), runRatchet (some b0) l = some v → v ≤ b0) ∧
    (∀ (l : List ℚ) (p0 : ℚ),
      ∃ v, runRatchet none (p0 :: l) = some v ∧ v ∈ p0 :: l ∧
        ∀ p ∈ p0 :: l, v ≤ p + EPS) ∧
    (runRatchet none [1/2, 1/2, 9/20, 23/50] = some (9/20) ∧
      ratchetFires none (1/2) = true ∧
      ratchetFires (some (1/2)) (1/2) = false ∧
      ratchetFires (some (1/2)) (9/20) = true ∧
      ratchetFires (some (9/20)) (23/50) = false) := by
  refine ⟨?_, ?_, ?_, ?_, ?_⟩
  · intro best p
    cases best with
    | none => simp [ratchetFires]
    | some b => simp [ratchetFires]
  · intro key event st c o
    cases hf : ratchetFires st.best c.price <;>
      simp [mainCycle, ratchetUpd, hf]
  · intro l b0 v hv
    rcases runRatchet_some l b0 with ⟨w, hw, -, hle, -⟩
    rw [hv] at hw
    cases hw
    exact hle
  · intro l p0
    have h0 : runRatchet none (p0 :: l) = runRatchet (some p0) l := by
      rw [runRatchet, List.foldl_cons]
      rfl
    rcases runRatchet_some l p0 with ⟨v, hv, hmem, hle, hall⟩
    refine ⟨v, h0 ▸ hv, ?_, ?_⟩
    · rcases hmem with rfl | hm
      · exact List.mem_cons_self _ _
      · exact List.mem_cons_of_mem _ hm
    · intro p hp
      rcases List.mem_cons.1 hp with rfl | hpm
      · have := EPS_pos
        linarith
      · exact hall p hpm
  · have e1 : ratchetUpd (none : Option ℚ) (1/2) = some (1/2) := rfl
    have e2 : ratchetUpd (some ((1 : ℚ)/2)) (1/2) = some (1/2) :=
      ratchetUpd_some_not_fired (by norm_num [EPS])
    have e3 : ratchetUpd (some ((1 : ℚ)/2)) (9/20) = some (9/20) :=
      ratchetUpd_some_fired (by norm_num [EPS])
    have e4 : ratchetUpd (some ((9 : ℚ)/20)) (23/50) = some (9/20) :=
      ratchetUpd_some_not_fired (by norm_num [EPS])
    refine ⟨?_, rfl, ?_, ?_, ?_⟩
    · rw [runRatchet, List.foldl_cons, e1, List.foldl_cons, e2,
        List.foldl_cons, e3, List.foldl_cons, e4, List.foldl_nil]
    · simp only [ratchetFires, decide_eq_false_iff_not, not_lt]
      norm_num [EPS]
    · simp only [ratchetFires, decide_eq_true_eq]
      norm_num [EPS]
    · simp only [ratchetFires, decide_eq_false_iff_not, not_lt]
      norm_num [EPS]

/-- Witness for the claim C1 theorem: the fold part applied to one concrete
observation below a concrete starting best. -/
theorem C1_ratchet_minimum_witness :
    runRatchet (some 2) [(1 : ℚ)/2] = some (1/2) ∧ (1 : ℚ)/2 ≤ 2 := by
  have hrun : runRatchet (some 2) [(1 : ℚ)/2] = some (1/2) := by
    rw [runRatchet, List.foldl_cons,
      ratchetUpd_some_fired (by norm_num [EPS]), List.foldl_nil]
  exact ⟨hrun, C1_ratchet_minimum.2.2.1 [(1 : ℚ)/2] 2 (1/2) hrun⟩

/-- Claim C8: whenever a new strict minimum is found, the best-price update
and the checkpoint write happen regardless of the notification outcome — a
transport error or any (non-)success response leaves the resulting state,
the alert decision and the save identical, and the ratchet is never rolled
back. -/
theorem C8_notify_failure_never_rolls_back :
    ∀ (key event : String) (st : BestState) (card : Option FoundItem)
      (o o' : NotifyOutcome),
      ((mainCycle key event st card o).state
          = (mainCycle key event st card o').state ∧
        (mainCycle key event st card o).saved
          = (mainCycle key event st card o').saved ∧
        (mainCycle key event st card o).alerted
          = (mainCycle key event st card o').alerted) ∧
      (∀ c : FoundItem, card = some c →
        ratchetFires st.best c.price = true →
        (mainCycle key event st card o).state.best = some c.price ∧
        (mainCycle key event st card o).saved = true) := by
  intro key event st card o o'
  constructor
  · cases card with
    | none => exact ⟨rfl, rfl, rfl⟩
    | some c =>
      cases hf : ratchetFires st.best c.price <;>
        simp [mainCycle, hf]
  · rintro c rfl hf
    simp [mainCycle, hf]

/-- Witness for the claim C8 theorem at a concrete state, card and the two
most distinct outcomes (success response and transport error). -/
theorem C8_notify_failure_never_rolls_back_witness :
    (mainCycle "k" "e" ⟨none, none⟩ (some ⟨"t", 1, "u"⟩)
        (NotifyOutcome.response 200 "ok")).state.best = some 1 ∧
    (mainCycle "k" "e" ⟨none, none⟩ (some ⟨"t", 1, "u"⟩)
        NotifyOutcome.transportError).saved = true := by
  refine ⟨((C8_notify_failure_never_rolls_back "k" "e" ⟨none, none⟩
      (some ⟨"t", 1, "u"⟩) (NotifyOutcome.response 200 "ok")
      NotifyOutcome.transportError).2 ⟨"t", 1, "u"⟩ rfl (by decide)).1, ?_⟩
  exact ((C8_notify_failure_never_rolls_back "k" "e" ⟨none, none⟩
      (some ⟨"t", 1, "u"⟩) NotifyOutcome.transportError
      NotifyOutcome.transportError).2 ⟨"t", 1, "u"⟩ rfl (by decide)).2

/-- Claim C10: with an empty notification key the sender returns without
issuing any outbound request, yet a cycle finding a new strict minimum still
updates and persists the best-price record (identically to any other key);
consequently a price later observed at or above the silently ratcheted best
never produces an alert or a request, whatever key is configured by then. -/
theorem C10_empty_key_ratchets_silently :
    (∀ (event title : String) (price : ℚ) (link : String)
        (o : NotifyOutcome),
      send_ifttt "" event title price link o = none) ∧
    (∀ (key event : String) (st : BestState) (card : Option FoundItem)
        (o : NotifyOutcome),
      (mainCycle "" event st card o).request = none ∧
      (mainCycle "" event st card o).state
        = (mainCycle key event st card o).state ∧
      (mainCycle "" event st card o).saved
        = (mainCycle key event st card o).saved) ∧
    (∀ (key' event : String) (b : ℚ) (t : Option String) (c : FoundItem)
        (o : NotifyOutcome),
      b ≤ c.price →
      (mainCycle key' event ⟨some b, t⟩ (some c) o).alerted = false ∧
      (mainCycle key' event ⟨some b, t⟩ (some c) o).request = none ∧
      (mainCycle key' event ⟨some b, t⟩ (some c) o).state = ⟨some b, t⟩) := by
  refine ⟨?_, ?_, ?_⟩
  · intro event title price link o
    cases o <;> simp [send_ifttt]
  · intro key event st card o
    cases card with
    | none => exact ⟨rfl, rfl, rfl⟩
    | some c =>
      cases hf : ratchetFires st.best c.price <;>
        simp [mainCycle, hf, send_ifttt]
  · intro key' event b t c o hb
    have hf : ratchetFires (some b) c.price = false := by
      have he := EPS_pos
      simp only [ratchetFires, decide_eq_false_iff_not, not_lt]
      linarith
    simp [mainCycle, hf]

/-- Witness for the claim C10 theorem: a price equal to the ratcheted best
produces no alert and no request even with a key configured. -/
theorem C10_empty_key_ratchets_silently_witness :
    (mainCycle "k" "e" ⟨some 1, none⟩ (some ⟨"t", 1, "u"⟩)
        (NotifyOutcome.response 200 "ok")).alerted = false ∧
    send_ifttt "" "e" "t" 1 "u" NotifyOutcome.transportError = none :=
  ⟨(C10_empty_key_ratchets_silently.2.2 "k" "e" 1 none ⟨"t", 1, "u"⟩
      (NotifyOutcome.response 200 "ok") (le_refl 1)).1,
    C10_empty_key_ratchets_silently.1 "e" "t" 1 "u"
      NotifyOutcome.transportError⟩

/-! ## The remaining claims about the discovery loop (C2, C3, C5, C6) -/

/-- The scan state at the start of a cycle (lines 323–325). -/
def scanInit : ScanState :=
  { seen := 0
    leadingFoiler := 0
    firstSeen := true
    classified := []
    extracted := [] }

/-- The loop state `find_first_non_foiler_with_scroll` starts from
(lines 311–329): one initial scroll already performed, counters zero. -/
def initLoop (env : Nat → PageState) : LoopState :=
  { scan := scanInit
    lastTotal := (env 0).cands.length
    noGrowth := 0
    noHeight := 0
    steps := 0
    prevHeight := (env 0).height
    scrolls := 1 }

/-- The spec scenario's excluded candidate at 0.10 €. -/
def b0C2 : Block :=
  { innerText := some "Carte A Foiler\nÀ PARTIR DE 0,10 €\nACHETER"
    headings := ["Carte A Foiler"]
    descendants := []
    links := [some "/cards/a"] }

/-- The spec scenario's internal offer line at 0.05 €. -/
def b1C2 : Block :=
  { innerText := some "1 disponible\nÀ PARTIR DE 0,05 €"
    headings := []
    descendants := []
    links := [] }

/-- The spec scenario's first normal candidate at 0.30 €. -/
def b2C2 : Block :=
  { innerText := some "Carte B\nÀ PARTIR DE 0,30 €\nACHETER"
    headings := ["Carte B"]
    descendants := []
    links := [some "/cards/b"] }

/-- The spec scenario's second normal candidate at 0.20 €. -/
def b3C2 : Block :=
  { innerText := some "Carte C\nÀ PARTIR DE 0,20 €\nACHETER"
    headings := ["Carte C"]
    descendants := []
    links := [some "/cards/c"] }

def candsC2 : List Block := [b0C2, b1C2, b2C2, b3C2]

/-- A configuration with the source's default thresholds (lines 23–29):
step budget 120, retries 10 and 8, verification below 1.50 €. -/
def cfgC2 : ScrollCfg :=
  { maxSteps := 120
    noGrowthRetries := 10
    noHeightRetries := 8
    verifyBelow := 3 / 2
    targetUrl := "https://example.org/fr/marketplace" }

/-- A page that shows the four scenario candidates on every snapshot. -/
def envC2 : Nat → PageState := fun _ => { cands := candsC2, height := 1000 }

/-- Oracles for the scenario: the detail page loads and is clean. -/
def venvC2 : VerifyEnv :=
  { resolveFetch := fun _ => ResolveFetch.navFailed
    detailFetch := fun _ => DetailFetch.ok false (some "Carte B unique") }

/-- The record the extractor produces for the 0.30 € candidate. -/
def d2C2 : ItemRecord :=
  { title := "Carte B"
    price := amountVal ['0'] ['3', '0']
    detail_url := some "https://example.org/fr/marketplace/cards/b" }

/-- The scan state after the accepting step of the scenario. -/
def sc2C2 : ScanState :=
  { seen := 3
    leadingFoiler := 1
    firstSeen := false
    classified := [0, 0, 2]
    extracted := [2] }

/-- The item the scenario returns. -/
def f2C2 : Found :=
  { idx := 2
    title := "Carte B"
    price := amountVal ['0'] ['3', '0']
    url := "https://example.org/fr/marketplace/cards/b" }

lemma qualifies_b0C2 : qualifies cfgC2 cxJoin venvC2 b0C2 = false := by
  decide

lemma qualifies_b1C2 : qualifies cfgC2 cxJoin venvC2 b1C2 = false := by
  decide

lemma d2C2_price_le : d2C2.price ≤ cfgC2.verifyBelow := by
  show amountVal ['0'] ['3', '0'] ≤ 3 / 2
  have h0 : '0'.toNat = 48 := rfl
  have h3 : '3'.toNat = 51 := rfl
  norm_num [amountVal, natOfDigits, h0, h3]

lemma qualifies_b2C2 : qualifies cfgC2 cxJoin venvC2 b2C2 = true := by
  have he : extract_title_price_url cxJoin cfgC2.targetUrl b2C2
      = some d2C2 := rfl
  unfold qualifies
  rw [show dispoSearch ((b2C2.innerText).getD "").data = false from by decide,
    show is_foiler_block b2C2 = false from by decide]
  simp only [he, Bool.not_false, Bool.true_and]
  rw [if_pos d2C2_price_le]
  rfl

/-- The scan state after skipping the leading Foiler candidate. -/
def stA2 : ScanState :=
  { seen := 1
    leadingFoiler := 1
    firstSeen := false
    classified := [0, 0]
    extracted := [] }

/-- The scan state after additionally skipping the offer line. -/
def stB2 : ScanState :=
  { seen := 2
    leadingFoiler := 1
    firstSeen := false
    classified := [0, 0]
    extracted := [] }

lemma scanStep_C2 :
    scanStep cfgC2 cxJoin venvC2 candsC2 scanInit
      = Sum.inr (sc2C2, f2C2) := by
  have h0 : scanInit.seen < candsC2.length := by decide
  rw [scanStep_lt cfgC2 cxJoin venvC2 candsC2 scanInit h0]
  have hd0 : dispoSearch
      (((candsC2.get ⟨scanInit.seen, h0⟩).innerText).getD "").data
      = false := rfl
  have hf0 : is_foiler_block (candsC2.get ⟨scanInit.seen, h0⟩)
      = true := rfl
  rw [if_neg (by rw [hd0]; exact Bool.false_ne_true), if_pos hf0]
  have e1 : foilerSkipState (candsC2.get ⟨scanInit.seen, h0⟩) scanInit
      = stA2 := rfl
  rw [e1]
  have h1 : stA2.seen < candsC2.length := by decide
  rw [scanStep_lt cfgC2 cxJoin venvC2 candsC2 stA2 h1]
  have hd1 : dispoSearch
      (((candsC2.get ⟨stA2.seen, h1⟩).innerText).getD "").data
      = true := rfl
  rw [if_pos hd1]
  have e2 : dispoSkipState (candsC2.get ⟨stA2.seen, h1⟩) stA2 = stB2 := rfl
  rw [e2]
  have h2 : stB2.seen < candsC2.length := by decide
  rw [scanStep_lt cfgC2 cxJoin venvC2 candsC2 stB2 h2]
  have hd2 : dispoSearch
      (((candsC2.get ⟨stB2.seen, h2⟩).innerText).getD "").data
      = false := rfl
  have hf2 : is_foiler_block (candsC2.get ⟨stB2.seen, h2⟩)
      = false := rfl
  rw [if_neg (by rw [hd2]; exact Bool.false_ne_true),
    if_neg (by rw [hf2]; exact Bool.false_ne_true)]
  have he2 : extract_title_price_url cxJoin cfgC2.targetUrl
      (candsC2.get ⟨stB2.seen, h2⟩) = some d2C2 := rfl
  simp only [he2]
  rw [if_pos d2C2_price_le,
    if_pos (show verify_not_foiler_by_detail cxJoin venvC2
      (resolve_to_card_detail cxJoin venvC2.resolveFetch d2C2.detail_url)
      = true from rfl)]
  rfl

lemma find_first_C2 :
    find_first_non_foiler_with_scroll cfgC2 cxJoin venvC2 envC2
      = (Outcome.found f2C2, { initLoop envC2 with scan := sc2C2 }) :=
  scrollLoop_found cfgC2 cxJoin venvC2 envC2 (initLoop envC2) sc2C2 f2C2
    scanStep_C2

/-- Claim C2: the discovery loop returns the first candidate in document
order that is not an offer line, not a Foiler block, extracts a price and
passes low-price verification; in the spec's four-item scenario (Foiler at
0.10 €, offer line at 0.05 €, normal at 0.30 €, normal at 0.20 €) it
returns the normal item at 0.30 € with leading-Foiler count 1. -/
theorem C2_first_qualifying_in_order :
    (∀ (cfg : ScrollCfg) (join : String → String → String)
        (venv : VerifyEnv) (env : Nat → PageState) (i : Nat)
        (hi : i < (env 1).cands.length),
      qualifies cfg join venv ((env 1).cands.get ⟨i, hi⟩) = true →
      (∀ j (hj : j < (env 1).cands.length), j < i →
        qualifies cfg join venv ((env 1).cands.get ⟨j, hj⟩) = false) →
      ∃ f, (find_first_non_foiler_with_scroll cfg join venv env).1
          = Outcome.found f ∧ f.idx = i ∧
        expectedFound cfg join venv i ((env 1).cands.get ⟨i, hi⟩)
          = some f) ∧
    ((find_first_non_foiler_with_scroll cfgC2 cxJoin venvC2 envC2).1
        = Outcome.found f2C2 ∧
      f2C2.idx = 2 ∧ f2C2.price = 3 / 10 ∧ f2C2.title = "Carte B" ∧
      (find_first_non_foiler_with_scroll
        cfgC2 cxJoin venvC2 envC2).2.scan.leadingFoiler = 1) := by
  constructor
  · intro cfg join venv env i hi hq hleast
    rcases scanStep_finds cfg join venv (env 1).cands scanInit i hi
        (Nat.zero_le i) hq (fun j hj _ hji => hleast j hj hji)
        with ⟨sc, f, hs, hidx, hexp⟩
    refine ⟨f, ?_, hidx, hexp⟩
    have h2 : find_first_non_foiler_with_scroll cfg join venv env
        = (Outcome.found f, { initLoop env with scan := sc }) :=
      scrollLoop_found cfg join venv env (initLoop env) sc f hs
    rw [h2]
  · refine ⟨?_, rfl, ?_, rfl, ?_⟩
    · rw [find_first_C2]
    · show amountVal ['0'] ['3', '0'] = 3 / 10
      have h0 : '0'.toNat = 48 := rfl
      have h3 : '3'.toNat = 51 := rfl
      norm_num [amountVal, natOfDigits, h0, h3]
    · rw [find_first_C2]
      rfl

theorem C2_first_qualifying_in_order_witness :
    ∃ f, (find_first_non_foiler_with_scroll cfgC2 cxJoin venvC2 envC2).1
        = Outcome.found f ∧ f.idx = 2 ∧
      expectedFound cfgC2 cxJoin venvC2 2
        ((envC2 1).cands.get ⟨2, by decide⟩) = some f :=
  C2_first_qualifying_in_order.1 cfgC2 cxJoin venvC2 envC2 2 (by decide)
    qualifies_b2C2
    (fun j hj hji => by
      interval_cases j
      · exact qualifies_b0C2
      · exact qualifies_b1C2)

/-- Claim C5: a candidate whose text matches the offer-line pattern is
skipped before the classifier or the extractor ever runs on it, and can
never become the returned item. -/
theorem C5_offer_line_never_reaches_classifier (cfg : ScrollCfg)
    (join : String → String → String) (venv : VerifyEnv)
    (env : Nat → PageState) (c : Block) (i : Nat)
    (hic : ∀ n (hi : i < (env n).cands.length),
      (env n).cands.get ⟨i, hi⟩ = c)
    (hd : dispoSearch ((c.innerText).getD "").data = true) :
    (i ∉ (find_first_non_foiler_with_scroll
        cfg join venv env).2.scan.classified ∧
      i ∉ (find_first_non_foiler_with_scroll
        cfg join venv env).2.scan.extracted) ∧
    ∀ f, (find_first_non_foiler_with_scroll cfg join venv env).1
        = Outcome.found f → f.idx ≠ i :=
  scrollLoop_dispo_untouched cfg join venv env c i hic hd (initLoop env)
    (by simp [initLoop, scanInit]) (by simp [initLoop, scanInit])

/-- A page showing only the offer-line candidate. -/
def envC5 : Nat → PageState := fun _ => { cands := [b1C2], height := 10 }

theorem C5_offer_line_never_reaches_classifier_witness :
    ((0 ∉ (find_first_non_foiler_with_scroll
        cfgC2 cxJoin venvC2 envC5).2.scan.classified ∧
      0 ∉ (find_first_non_foiler_with_scroll
        cfgC2 cxJoin venvC2 envC5).2.scan.extracted) ∧
    ∀ f, (find_first_non_foiler_with_scroll cfgC2 cxJoin venvC2 envC5).1
        = Outcome.found f → f.idx ≠ 0) :=
  C5_offer_line_never_reaches_classifier cfgC2 cxJoin venvC2 envC5 b1C2 0
    (fun n hi => rfl) (by decide)

/-! ### Claim C6: the low-price verification -/

lemma verify_true_iff (join : String → String → String) (venv : VerifyEnv)
    (url : Option String) :
    verify_not_foiler_by_detail join venv url = true ↔
      ∃ u, url = some u ∧ u ≠ "" ∧
        ∃ detail, resolve_to_card_detail join venv.resolveFetch (some u)
            = some detail ∧
          ∃ bt, venv.detailFetch detail = DetailFetch.ok false bt ∧
            containsSub ((bt.getD "").data.map toLowerPy) ("foiler".data)
              = false := by
  constructor
  · intro h
    rcases url with _ | u
    · simp only [verify_not_foiler_by_detail] at h
      exact absurd h Bool.false_ne_true
    · simp only [verify_not_foiler_by_detail] at h
      by_cases hu : u = ""
      · rw [if_pos hu] at h
        exact absurd h (by simp)
      · rw [if_neg hu] at h
        rcases hr : resolve_to_card_detail join venv.resolveFetch (some u)
            with _ | detail
        · simp only [hr] at h
          exact absurd h Bool.false_ne_true
        · simp only [hr] at h
          rcases hdf : venv.detailFetch detail with _ | ⟨fv, bt⟩
          · simp only [hdf] at h
            exact absurd h Bool.false_ne_true
          · simp only [hdf] at h
            rw [Bool.not_eq_true', Bool.or_eq_false_iff] at h
            rw [h.1] at hdf
            exact ⟨u, rfl, hu, detail, hr, bt, hdf, h.2⟩
  · rintro ⟨u, rfl, hu, detail, hr, bt, hdf, hcont⟩
    simp only [verify_not_foiler_by_detail]
    rw [if_neg hu]
    simp only [hr, hdf, hcont]
    rfl

lemma expectedFound_price (cfg : ScrollCfg)
    (join : String → String → String) (venv : VerifyEnv) (i : Nat)
    (b : Block) (f : Found)
    (h : expectedFound cfg join venv i b = some f) :
    ∃ d, extract_title_price_url join cfg.targetUrl b = some d ∧
      f.price = d.price := by
  unfold expectedFound at h
  rcases he : extract_title_price_url join cfg.targetUrl b with _ | d
  · simp only [he] at h
    exact absurd h (by simp)
  · simp only [he] at h
    refine ⟨d, rfl, ?_⟩
    split_ifs at h with hple <;>
      simp only [Option.some.injEq] at h <;> rw [← h]

/-- Claim C6: a verification-true result requires a loaded detail page
with no visible Foiler and a clean body — every failure path gives false;
every accepted low-priced item actually passed verification; and a failed
verification discards the candidate and continues the scan. -/
theorem C6_low_price_verification :
    (∀ (join : String → String → String) (venv : VerifyEnv)
        (url : Option String),
      verify_not_foiler_by_detail join venv url = true ↔
        ∃ u, url = some u ∧ u ≠ "" ∧
          ∃ detail, resolve_to_card_detail join venv.resolveFetch (some u)
              = some detail ∧
            ∃ bt, venv.detailFetch detail = DetailFetch.ok false bt ∧
              containsSub ((bt.getD "").data.map toLowerPy) ("foiler".data)
                = false) ∧
    (∀ (cfg : ScrollCfg) (join : String → String → String)
        (venv : VerifyEnv) (cands : List Block) (st sc : ScanState)
        (f : Found),
      scanStep cfg join venv cands st = Sum.inr (sc, f) →
      f.price ≤ cfg.verifyBelow →
      ∃ (hi : f.idx < cands.length) (d : ItemRecord),
        extract_title_price_url join cfg.targetUrl (cands.get ⟨f.idx, hi⟩)
          = some d ∧ d.price = f.price ∧
        verify_not_foiler_by_detail join venv
          (resolve_to_card_detail join venv.resolveFetch d.detail_url)
          = true) ∧
    (∀ (cfg : ScrollCfg) (join : String → String → String)
        (venv : VerifyEnv) (cands : List Block) (st : ScanState)
        (h : st.seen < cands.length) (d : ItemRecord),
      dispoSearch (((cands.get ⟨st.seen, h⟩).innerText).getD "").data
        = false →
      is_foiler_block (cands.get ⟨st.seen, h⟩) = false →
      extract_title_price_url join cfg.targetUrl (cands.get ⟨st.seen, h⟩)
        = some d →
      d.price ≤ cfg.verifyBelow →
      verify_not_foiler_by_detail join venv
        (resolve_to_card_detail join venv.resolveFetch d.detail_url)
        = false →
      scanStep cfg join venv cands st
        = scanStep cfg join venv cands
          (extractState (cands.get ⟨st.seen, h⟩) st)) := by
  refine ⟨verify_true_iff, ?_, ?_⟩
  · intro cfg join venv cands st sc f hres hple
    rcases scanStep_found_inv cfg join venv cands st sc f hres
        with ⟨hseen, hi, hq, hexp⟩
    rcases qualifies_true_cases hq with ⟨hd, hf, d, he, hver⟩
    rcases expectedFound_price cfg join venv f.idx
        (cands.get ⟨f.idx, hi⟩) f hexp with ⟨d2, he2, hpr⟩
    rw [he] at he2
    injection he2 with hdd
    refine ⟨hi, d, he, ?_, hver ?_⟩
    · rw [hpr, hdd]
    · rw [hdd, ← hpr]
      exact hple
  · intro cfg join venv cands st h d hd hf he hple hv
    rw [scanStep_lt cfg join venv cands st h,
      if_neg (by rw [hd]; exact Bool.false_ne_true),
      if_neg (by rw [hf]; exact Bool.false_ne_true)]
    simp only [he]
    rw [if_pos hple, if_neg (by rw [hv]; exact Bool.false_ne_true)]

/-- Oracles on which the detail fetch always fails. -/
def venvC6 : VerifyEnv :=
  { resolveFetch := fun _ => ResolveFetch.navFailed
    detailFetch := fun _ => DetailFetch.navFailed }

theorem C6_low_price_verification_witness :
    scanStep cfgC2 cxJoin venvC6 [b2C2] scanInit
      = scanStep cfgC2 cxJoin venvC6 [b2C2]
        (extractState ([b2C2].get ⟨0, by decide⟩) scanInit) :=
  C6_low_price_verification.2.2 cfgC2 cxJoin venvC6 [b2C2] scanInit
    (by decide) d2C2 (by decide) (by decide) rfl d2C2_price_le rfl

/-! ### Claim C3: the stop conditions of the loop -/

/-- Claim C3: the loop ends without an item exactly on budget exhaustion
or when both stall counters reached their thresholds; a height increase
prevents the stop whenever the height threshold is positive; and once the
page stabilizes after step K with no qualifying candidate, the loop stops
within the no-growth threshold of steps past K (thresholds positive, the
height threshold at most the growth threshold, as in the defaults 8 and
10), finding nothing. -/
theorem C3_stop_conditions :
    (∀ (cfg : ScrollCfg) (join : String → String → String)
        (venv : VerifyEnv) (env : Nat → PageState),
      ((∀ f, (find_first_non_foiler_with_scroll cfg join venv env).1
          ≠ Outcome.found f) ↔
        ((find_first_non_foiler_with_scroll cfg join venv env).1
            = Outcome.stopMax ∨
          (find_first_non_foiler_with_scroll cfg join venv env).1
            = Outcome.stopNoGrowth)) ∧
      ((find_first_non_foiler_with_scroll cfg join venv env).1
          = Outcome.stopMax →
        cfg.maxSteps ≤ (find_first_non_foiler_with_scroll
          cfg join venv env).2.steps) ∧
      ((find_first_non_foiler_with_scroll cfg join venv env).1
          = Outcome.stopNoGrowth →
        cfg.noGrowthRetries ≤ (find_first_non_foiler_with_scroll
            cfg join venv env).2.noGrowth ∧
          cfg.noHeightRetries ≤ (find_first_non_foiler_with_scroll
            cfg join venv env).2.noHeight)) ∧
    (∀ (cfg : ScrollCfg) (env : Nat → PageState) (st : LoopState)
        (sc : ScanState),
      0 < cfg.noHeightRetries →
      st.prevHeight < (env (st.scrolls + 1)).height →
      stopCond cfg (loopAdvance env st sc) = false) ∧
    (∀ (cfg : ScrollCfg) (join : String → String → String)
        (venv : VerifyEnv) (env : Nat → PageState) (K : Nat),
      (∀ n, K ≤ n → env n = env K) →
      (∀ n, ∃ t, (env n).cands ++ t = (env (n + 1)).cands) →
      (∀ i (hi : i < (env K).cands.length),
        qualifies cfg join venv ((env K).cands.get ⟨i, hi⟩) = false) →
      0 < cfg.noGrowthRetries → 0 < cfg.noHeightRetries →
      cfg.noHeightRetries ≤ cfg.noGrowthRetries →
      (∀ f, (find_first_non_foiler_with_scroll cfg join venv env).1
          ≠ Outcome.found f) ∧
        (find_first_non_foiler_with_scroll cfg join venv env).2.steps
          ≤ K + cfg.noGrowthRetries) := by
  refine ⟨fun cfg join venv env => ⟨?_, ?_, ?_⟩,
    fun cfg env st sc => stopCond_false_of_height_growth cfg env st sc,
    ?_⟩
  · constructor
    · intro hnf
      rcases hout : (find_first_non_foiler_with_scroll cfg join venv env).1
          with f2 | _ | _
      · exact absurd hout (hnf f2)
      · exact Or.inl rfl
      · exact Or.inr rfl
    · intro hor f hf
      rcases hor with hcon | hcon <;> rw [hf] at hcon <;>
        exact absurd hcon (by simp)
  · exact (scrollLoop_exit_shape cfg join venv env (initLoop env)).1
  · exact (scrollLoop_exit_shape cfg join venv env (initLoop env)).2
  · intro cfg join venv env K hK hmono hnoq hNG hNH hle
    have hpref := env_pref_of_stab hK hmono
    have hnoqAll := no_qualify_of_env cfg join venv hpref hnoq
    have hlen0 : (env 0).cands.length ≤ (env K).cands.length := by
      rcases hpref 0 with ⟨t, ht⟩
      have hl := congrArg List.length ht
      rw [List.length_append] at hl
      omega
    have hinit4 : K + 1 ≤ (1 : Nat) →
        (env 0).cands.length = (env K).cands.length := by
      intro hK1
      have hK0 : K = 0 := by omega
      rw [hK0]
    have hstop0 : stopCond cfg (initLoop env) = false := by
      rw [stopCond_false_iff]
      exact Or.inl hNG
    have h := scrollLoop_stab cfg join venv env K hK hpref hnoqAll hNG hNH
      (initLoop env) rfl rfl hlen0 hinit4
      (by show 1 - 1 - K ≤ 0; omega) (by show 1 - 1 - K ≤ 0; omega)
      hstop0
    refine ⟨h.1, ?_⟩
    have h2 := h.2
    rw [max_eq_left hle] at h2
    exact h2

/-- A page showing only non-qualifying candidates, never growing. -/
def envC3 : Nat → PageState :=
  fun _ => { cands := [b0C2, b1C2], height := 5 }

theorem C3_stop_conditions_witness :
    (∀ f, (find_first_non_foiler_with_scroll cfgC2 cxJoin venvC2 envC3).1
        ≠ Outcome.found f) ∧
      (find_first_non_foiler_with_scroll
        cfgC2 cxJoin venvC2 envC3).2.steps ≤ 0 + cfgC2.noGrowthRetries :=
  C3_stop_conditions.2.2 cfgC2 cxJoin venvC2 envC3 0
    (fun n _ => rfl) (fun n => ⟨[], rfl⟩)
    (fun i hi => by
      have hi2 : i < 2 := hi
      interval_cases i
      · exact qualifies_b0C2
      · exact qualifies_b1C2)
    (by decide) (by decide) (by decide)

end Monitor
